import Mathlib

/-!
# Verification of the devmtg-library search/ranking and content-rendering core

This file gives a shallow embedding, in Lean 4, of the pure core of the
devmtg-library repository:

* `devmtg/library/js/shared/library-utils.js` — query tokenizer, relevance
  scorer (`scoreMatch`), ranked search (`rankTalksByQuery`), YouTube id
  extraction;
* `devmtg/js/shared/global-search.js` — URL resolution (`resolveContentUrl`),
  the DOM sanitizer (`sanitizeHtmlFragment`), inline-markdown formatting and
  the markdown line machine (`renderMarkdownToHtml`,
  `preserveMarkdownCodeFencePlaceholders`).

JavaScript strings are modelled as Lean `String`/`List Char`; JS numbers used
by the scorer are modelled as exact rationals (`Rat`) — all score arithmetic
in the source stays within the range where IEEE doubles behave like exact
arithmetic on multiples of 1/10, so no claim below depends on rounding.
`Array.prototype.sort` is modelled as a stable insertion sort, which agrees
with the ECMAScript specification for consistent comparators (all comparators
in the source are consistent total preorders).  Host regular expressions are
hand-translated into explicit scanners with the same matching semantics.
-/

namespace DevmtgLib

/-! ## Generic string helpers (models of the JS string primitives used) -/

/-- Model of JS `String.prototype.toLowerCase` (ASCII-adequate; the data this
repository feeds through it is ASCII). -/
def lowerS (s : String) : String := String.mk (s.data.map Char.toLower)

/-- JS whitespace test for `\s` / `trim` (ASCII whitespace; the source never
relies on exotic Unicode whitespace). -/
def isWs (c : Char) : Bool := c = ' ' ∨ c = '\t' ∨ c = '\n' ∨ c = '\r'

/-- Model of JS `String.prototype.trim`. -/
def jsTrimL (cs : List Char) : List Char :=
  ((cs.dropWhile isWs).reverse.dropWhile isWs).reverse

/-- Model of JS `String.prototype.trim`. -/
def jsTrim (s : String) : String := String.mk (jsTrimL s.data)

/-- First index of `needle` in `hay` (model of JS `String.prototype.indexOf`;
like in JS, the empty needle matches at index 0). -/
def idxOfAux : List Char → List Char → Nat → Option Nat
  | [], needle, i => if needle.isPrefixOf ([] : List Char) then some i else none
  | c :: t, needle, i =>
    if needle.isPrefixOf (c :: t) then some i else idxOfAux t needle (i + 1)

/-- Model of JS `String.prototype.indexOf` (result `none` models `-1`). -/
def jsIndexOf (hay needle : String) : Option Nat := idxOfAux hay.data needle.data 0

/-- Model of JS `String.prototype.includes`. -/
def jsIncludes (hay needle : String) : Bool := (jsIndexOf hay needle).isSome

/-- Model of JS `String.prototype.startsWith`. -/
def jsStartsWith (s p : String) : Bool := p.data.isPrefixOf s.data

/-- Model of JS `String.prototype.endsWith`. -/
def jsEndsWith (s p : String) : Bool := p.data.isSuffixOf s.data

/-- Split a char list at every occurrence of `sep` (model of JS
`String.prototype.split` with a single-character separator). -/
def splitOnCharL (sep : Char) : List Char → List (List Char)
  | [] => [[]]
  | c :: t =>
    let rest := splitOnCharL sep t
    if c = sep then [] :: rest
    else
      match rest with
      | [] => [[c]]
      | h :: r => (c :: h) :: r

/-- Model of JS `String.prototype.split('/')`-style splitting. -/
def jsSplitChar (s : String) (sep : Char) : List String :=
  (splitOnCharL sep s.data).map String.mk

/-- Value of a run of decimal digit characters. -/
def digitsToNat (ds : List Char) : Nat :=
  ds.foldl (fun n c => n * 10 + (c.toNat - '0'.toNat)) 0

/-- Model of JS `parseInt(s, 10)`: skip leading whitespace, optional sign,
then a maximal run of decimal digits; `none` models `NaN`. -/
def jsParseInt (s : String) : Option Int :=
  let cs := s.data.dropWhile isWs
  let signed : Int × List Char :=
    match cs with
    | '-' :: t => (-1, t)
    | '+' :: t => (1, t)
    | l => (1, l)
  let digits := signed.2.takeWhile Char.isDigit
  if digits = [] then none
  else some (signed.1 * (digitsToNat digits : Int))

end DevmtgLib

namespace DevmtgLib

/-! ## library-utils.js — tokenizer

Source: `tokenizeQuery` (library-utils.js, lines 185–194).  The regex
`/"([^"]+)"|(\S+)/g` is modelled by an explicit left-to-right scanner: at the
first non-whitespace position, alternative 1 (`"([^"]+)"`) is tried first —
it matches when the position holds `"` and a later `"` exists with at least
one character in between — otherwise alternative 2 (`\S+`) matches the
maximal non-whitespace run. -/

/-- Does alternative 1 of the tokenizer regex match at a position holding `"`
followed by `rest`?  Requires a nonempty run of non-`"` characters and then a
closing `"`. -/
def quotedAltMatches (rest : List Char) : Bool :=
  rest.takeWhile (fun c => ¬ c = '"') ≠ [] ∧
    rest.dropWhile (fun c => ¬ c = '"') ≠ []

/-- The raw matched substrings produced by repeatedly `exec`-ing the tokenizer
regex: group 1 content for quoted matches, the whole match for `\S+` runs.
The `fuel` argument only makes the recursion structural (each step consumes at
least one character, so `length + 1` is always enough); it is an artifact of
totality, not of the modelled code. -/
def tokenScan : Nat → List Char → List (List Char)
  | 0, _ => []
  | _ + 1, [] => []
  | fuel + 1, c :: rest =>
    if isWs c then tokenScan fuel rest
    else if c = '"' ∧ quotedAltMatches rest then
      let inner := rest.takeWhile (fun d => ¬ d = '"')
      let after := (rest.dropWhile (fun d => ¬ d = '"')).drop 1
      inner :: tokenScan fuel after
    else
      let run := (c :: rest).takeWhile (fun d => ¬ isWs d)
      let after := (c :: rest).dropWhile (fun d => ¬ isWs d)
      run :: tokenScan fuel after

/-- `tokenizeQuery` (library-utils.js 185–194): each raw regex match is
lowercased, trimmed, and kept only when at least 2 characters long. -/
def tokenizeQuery (query : String) : List String :=
  ((tokenScan (query.data.length + 1) query.data).map
      (fun m => jsTrim (lowerS (String.mk m)))).filter
    (fun t => 2 ≤ t.length)

end DevmtgLib

namespace DevmtgLib

/-! ## library-utils.js — scoring and ranking -/

/-- An indexed talk record as consumed by `scoreMatch` /
`compareRankedEntries`: the repository's records are JS objects; the fields
read by the ranking code are modelled as strings, with a JS-absent field
modelled by `""` (the source coerces every field through
`String(x || '')`, under which `undefined` and `""` are indistinguishable). -/
structure IndexedTalk where
  id : String := ""
  title : String := ""
  meeting : String := ""
  category : String := ""
  titleLower : String := ""
  speakerLower : String := ""
  abstractLower : String := ""
  tagsLower : String := ""
  meetingLower : String := ""
  yearField : String := ""
deriving DecidableEq, Repr

/-- Per-token score across the six scored fields (the loop body of
`scoreMatch`, library-utils.js 200–219, without the AND early-return). -/
def tokenFieldScore (t : IndexedTalk) (token : String) : Rat :=
  (match jsIndexOf t.titleLower token with
   | some 0 => 100
   | some _ => 50
   | none => 0)
  + (if (jsIndexOf t.speakerLower token).isSome then 30 else 0)
  + (if jsIncludes t.abstractLower token then 10 else 0)
  + (if jsIncludes t.tagsLower token then 15 else 0)
  + (if jsIncludes t.meetingLower token then 5 else 0)
  + (if jsIncludes t.category token then 5 else 0)

/-- The token loop of `scoreMatch`: `none` models the `return 0` taken when
some token's field score is 0 (AND semantics), otherwise the sum. -/
def scoreTokens (t : IndexedTalk) : List String → Option Rat
  | [] => some 0
  | token :: rest =>
    let s := tokenFieldScore t token
    if s = 0 then none
    else (scoreTokens t rest).map (fun r => s + r)

/-- The year as parsed by `scoreMatch` (library-utils.js 222–223):
`parseInt(indexedTalk._year || '2007', 10)` with `NaN` falling back
to 2007. -/
def safeYear (t : IndexedTalk) : Int :=
  match jsParseInt (if t.yearField = "" then "2007" else t.yearField) with
  | none => 2007
  | some y => y

/-- The recency tie-nudge added by `scoreMatch` (library-utils.js 224). -/
def yearNudge (t : IndexedTalk) : Rat := (safeYear t - 2007 : Int) * (1 / 10 : Rat)

/-- `scoreMatch` (library-utils.js 196–226). -/
def scoreMatch (t : IndexedTalk) (tokens : List String) : Rat :=
  if tokens = [] then 0
  else
    match scoreTokens t tokens with
    | none => 0
    | some s => s + yearNudge t

/-- Model of `String.prototype.localeCompare`, as code-point lexicographic
comparison.  The meeting/id/title identifiers compared by the source are
ASCII digit/dash/letter strings, on which locale collation and lexicographic
order agree; locale tailoring is outside the model. -/
def localeCompare (a b : String) : Int :=
  if a < b then -1 else if b < a then 1 else 0

/-- A `{talk, score}` entry of the `scored` array in `rankTalksByQuery`. -/
structure RankedEntry where
  talk : IndexedTalk
  score : Rat
deriving DecidableEq, Repr

/-- `compareRankedEntries` (library-utils.js 228–245): descending score, then
descending meeting, then ascending id, then ascending title. -/
def compareRankedEntries (a b : RankedEntry) : Rat :=
  let scoreDiff := b.score - a.score
  if scoreDiff ≠ 0 then scoreDiff
  else
    let meetingDiff := localeCompare b.talk.meeting a.talk.meeting
    if meetingDiff ≠ 0 then (meetingDiff : Rat)
    else
      let idDiff := localeCompare a.talk.id b.talk.id
      if idDiff ≠ 0 then (idDiff : Rat)
      else (localeCompare a.talk.title b.talk.title : Rat)

/-- Insert `x` into `l`, placing it before the first element `y` with
`ltc x y` (i.e. comparator `< 0`), after all elements it does not precede —
exactly the placement a stable sort gives a later-arriving element. -/
def insertStable (ltc : α → α → Bool) (x : α) : List α → List α
  | [] => [x]
  | y :: ys => if ltc x y then x :: y :: ys else y :: insertStable ltc x ys

/-- Model of `Array.prototype.sort(cmp)` for a consistent comparator: a
stable insertion sort, inserting elements left to right. -/
def jsSort (ltc : α → α → Bool) (l : List α) : List α :=
  l.foldl (fun acc x => insertStable ltc x acc) []

/-- `rankTalksByQuery` (library-utils.js 247–262). -/
def rankTalksByQuery (talks : List IndexedTalk) (query : String) : List IndexedTalk :=
  let tokens := tokenizeQuery query
  if tokens = [] then
    jsSort (fun a b => localeCompare b.meeting a.meeting < 0) talks
  else
    let scored := talks.filterMap (fun talk =>
      let score := scoreMatch talk tokens
      if 0 < score then some (RankedEntry.mk talk score) else none)
    (jsSort (fun a b => compareRankedEntries a b < 0) scored).map RankedEntry.talk

end DevmtgLib

namespace DevmtgLib

/-! ## Model of the WHATWG `URL` constructor

The source uses the browser's `new URL(...)` in `extractYouTubeId` and
`resolveContentUrl`.  The model below covers the parts those functions
observe: parse success/failure, `protocol`, `hostname` (lowercased, `www.`
kept), `pathname`, `searchParams.get`, and serialization.  The WHATWG
parser's removal of every ASCII tab and newline from its input is modelled
(`stripTabNl`); `resolveContentUrl`'s scheme handling depends on it.
Remaining simplifications, which no claim depends on: percent-decoding in
query parameters, dot-segment normalization of paths, host punycoding and
the constructor's own leading/trailing-control trim are not modelled (the
call sites trim first), and a special-scheme URL without `//` (e.g.
`http:foo`) is treated as a parse failure. -/

/-- Parsed URL: either an authority-based URL or an opaque-path URL
(`mailto:…`, `javascript:…`). -/
structure JsUrl where
  scheme : String
  hostname : String := ""
  pathname : String := ""
  search : String := ""
  fragment : String := ""
  opaqueRest : Option String := none
deriving DecidableEq, Repr

/-- Schemes the URL standard treats as special (require an authority). -/
def specialSchemes : List String := ["http", "https", "ws", "wss", "ftp", "file"]

/-- The WHATWG basic URL parser removes every ASCII tab or newline (U+0009,
U+000A, U+000D) from its input before parsing. -/
def stripTabNl (s : String) : String :=
  String.mk (s.data.filter (fun c => ¬ (c = '\t' ∨ c = '\n' ∨ c = '\r')))

/-- Leading scheme of a URL string: `[A-Za-z][A-Za-z0-9+.-]*` followed by
`:`, as in the regex `/^[a-z][a-z0-9+.-]*:/i` used at global-search.js 738.
Returns the scheme (not lowercased) and the remainder after the colon. -/
def takeScheme (cs : List Char) : Option (List Char × List Char) :=
  match cs with
  | [] => none
  | c :: rest =>
    if c.isAlpha then
      let body := rest.takeWhile (fun d => d.isAlphanum ∨ d = '+' ∨ d = '.' ∨ d = '-')
      match rest.dropWhile (fun d => d.isAlphanum ∨ d = '+' ∨ d = '.' ∨ d = '-') with
      | ':' :: after => some (c :: body, after)
      | _ => none
    else none

/-- Does `/^[a-z][a-z0-9+.-]*:/i` match? -/
def schemeRegexMatches (s : String) : Bool := (takeScheme s.data).isSome

/-- Keep everything after the last `@` (strips URL userinfo). -/
def afterLastAt (cs : List Char) : List Char :=
  if (cs.filter (fun c => c = '@')) = [] then cs
  else ((cs.reverse.takeWhile (fun c => ¬ c = '@'))).reverse

/-- Model of `new URL(s)` for an absolute URL string: tab/newline removal,
then scheme, authority, path, query and fragment. -/
def parseJsUrl (s : String) : Option JsUrl :=
  match takeScheme (stripTabNl s).data with
  | none => none
  | some (schemeCs, rest) =>
    let scheme := lowerS (String.mk schemeCs)
    match rest with
    | '/' :: '/' :: afterSlashes =>
      let isAuthEnd : Char → Bool := fun c => c = '/' ∨ c = '?' ∨ c = '#'
      let authority := afterSlashes.takeWhile (fun c => ¬ isAuthEnd c)
      let afterAuth := afterSlashes.dropWhile (fun c => ¬ isAuthEnd c)
      let host := (afterLastAt authority).takeWhile (fun c => ¬ c = ':')
      if host = [] ∧ scheme ∈ specialSchemes ∧ scheme ≠ "file" then none
      else
        let path := afterAuth.takeWhile (fun c => ¬ (c = '?' ∨ c = '#'))
        let afterPath := afterAuth.dropWhile (fun c => ¬ (c = '?' ∨ c = '#'))
        let path := if path = [] then ['/'] else path
        let search := match afterPath with
          | '?' :: t => t.takeWhile (fun c => ¬ c = '#')
          | _ => []
        let fragment := match afterPath.dropWhile (fun c => ¬ c = '#') with
          | '#' :: t => t
          | _ => []
        some { scheme := scheme, hostname := lowerS (String.mk host),
               pathname := String.mk path, search := String.mk search,
               fragment := String.mk fragment }
    | _ =>
      if scheme ∈ specialSchemes then none
      else some { scheme := scheme, opaqueRest := some (String.mk rest) }

/-- Serialization (`URL.prototype.toString`) of a modelled URL. -/
def urlToString (u : JsUrl) : String :=
  match u.opaqueRest with
  | some rest => u.scheme ++ ":" ++ rest
  | none =>
    u.scheme ++ "://" ++ u.hostname ++ u.pathname
      ++ (if u.search = "" then "" else "?" ++ u.search)
      ++ (if u.fragment = "" then "" else "#" ++ u.fragment)

/-- Directory part of a path: everything up to and including the last `/`. -/
def pathDirOf (path : String) : String :=
  String.mk ((path.data.reverse.dropWhile (fun c => ¬ c = '/')).reverse)

/-- Model of `new URL(value, base)` for a `value` the scheme regex did not
match.  The WHATWG parser first removes every ASCII tab or newline from the
input; if what remains carries a scheme of its own the base is ignored
(this is how `jav\tascript:alert(1)` becomes an absolute `javascript:` URL),
otherwise the value is resolved against the base (`none` models the
constructor throwing on an opaque base). -/
def urlResolveRel (value : String) (base : JsUrl) : Option JsUrl :=
  let cs := (stripTabNl value).data
  if (takeScheme cs).isSome then parseJsUrl value
  else if base.opaqueRest.isSome then none
  else
    let split : List Char → String × String × String := fun pcs =>
      let p := pcs.takeWhile (fun c => ¬ (c = '?' ∨ c = '#'))
      let afterP := pcs.dropWhile (fun c => ¬ (c = '?' ∨ c = '#'))
      let q := match afterP with
        | '?' :: t => t.takeWhile (fun c => ¬ c = '#')
        | _ => []
      let f := match afterP.dropWhile (fun c => ¬ c = '#') with
        | '#' :: t => t
        | _ => []
      (String.mk p, String.mk q, String.mk f)
    match cs with
    | [] => some { base with fragment := "" }
    | '#' :: t => some { base with fragment := String.mk t }
    | '?' :: t =>
      let parts := split ('?' :: t)
      some { base with search := parts.2.1, fragment := parts.2.2 }
    | '/' :: _ =>
      let parts := split cs
      some { base with pathname := parts.1, search := parts.2.1, fragment := parts.2.2 }
    | _ =>
      let parts := split cs
      let newPath := pathDirOf base.pathname ++ parts.1
      some { base with pathname := newPath, search := parts.2.1, fragment := parts.2.2 }

/-- Model of `new URL(value, baseStr)`: an absolute `value` ignores the base,
otherwise `value` is resolved against the parsed base. -/
def parseWithBase (value baseStr : String) : Option JsUrl :=
  if schemeRegexMatches value then parseJsUrl value
  else (parseJsUrl baseStr).bind (urlResolveRel value)

end DevmtgLib

namespace DevmtgLib

/-! ## global-search.js — `resolveContentUrl` (lines 727–752)

`window.location.href` is an ambient input of the source function (it is the
fallback base); the model takes it as the explicit argument `loc`. -/

/-- `resolveContentUrl(rawUrl, baseUrl, { allowData })`. -/
def resolveContentUrl (rawUrl baseUrl loc : String) (allowData : Bool) : String :=
  let value := jsTrim rawUrl
  if value = "" then ""
  else if jsStartsWith value "#" then value
  else
    let lower := lowerS value
    if jsStartsWith lower "javascript:" ∨ jsStartsWith lower "vbscript:" then ""
    else if jsStartsWith lower "data:" then (if allowData then value else "")
    else if jsStartsWith lower "//" then "https:" ++ value
    else if schemeRegexMatches value then
      match parseJsUrl value with
      | none => ""
      | some parsed =>
        if parsed.scheme = "http" ∨ parsed.scheme = "https"
            ∨ parsed.scheme = "mailto" ∨ parsed.scheme = "tel" then
          urlToString parsed
        else ""
    else
      match (if baseUrl ≠ "" then parseWithBase baseUrl loc else parseJsUrl loc) with
      | none => ""
      | some base =>
        match urlResolveRel value base with
        | none => ""
        | some u => urlToString u

end DevmtgLib

namespace DevmtgLib

/-! ## library-utils.js — YouTube id handling (lines 24–54) -/

/-- `isYouTubeVideoId` (library-utils.js 24–26): `/^[A-Za-z0-9_-]{11}$/`.
`none` models a `null`/absent candidate (`value || ''` fails the regex). -/
def isYouTubeVideoId (value : Option String) : Bool :=
  match value with
  | none => false
  | some s => s.length = 11 ∧ s.data.all (fun c => c.isAlphanum ∨ c = '_' ∨ c = '-')

/-- JS truthiness for an optional string: `""` is falsy. -/
def truthy : Option String → Option String
  | none => none
  | some s => if s = "" then none else some s

/-- Model of `url.searchParams.get(key)` (no percent-decoding; no claim feeds
percent-encoded queries through it). -/
def searchGet (search key : String) : Option String :=
  ((jsSplitChar search '&').filterMap (fun pair =>
      match jsSplitChar pair '=' with
      | [] => none
      | name :: rest => if name = key then some (String.intercalate "=" rest) else none)).head?

/-- `hostname.replace(/^www\./, '')` (library-utils.js 33). -/
def stripLeadingWww (h : String) : String :=
  if jsStartsWith h "www." then String.mk (h.data.drop 4) else h

/-- Nonempty `/`-separated path segments: `pathname.split('/').filter(Boolean)`. -/
def pathSegments (pathname : String) : List String :=
  (jsSplitChar pathname '/').filter (fun s => s ≠ "")

/-- `extractYouTubeId` (library-utils.js 28–54). -/
def extractYouTubeId (videoUrl : String) : Option String :=
  if videoUrl = "" then none
  else
    match parseJsUrl videoUrl with
    | none => none
    | some url =>
      let host := stripLeadingWww url.hostname
      let candidate : Option String :=
        if host = "youtu.be" then truthy (pathSegments url.pathname).head?
        else if jsEndsWith host "youtube.com" then
          let c : Option String :=
            if url.pathname = "/watch" then truthy (searchGet url.search "v")
            else
              match pathSegments url.pathname with
              | p0 :: rest =>
                if p0 = "embed" ∨ p0 = "shorts" ∨ p0 = "live" ∨ p0 = "v" then
                  truthy rest.head?
                else none
              | [] => none
          match c with
          | some v => some v
          | none => truthy (searchGet url.search "vi")
        else none
      if isYouTubeVideoId candidate then candidate else none

end DevmtgLib

namespace DevmtgLib

/-! ## DOM model for `sanitizeHtmlFragment` (global-search.js 810–863)

`sanitizeHtmlFragment` parses its input string with the browser's HTML parser
(`template.innerHTML = raw`) and then rewrites the resulting DOM tree.  The
HTML parser is the browser's, not this repository's; the model therefore
works on the parsed tree: an element node carries a tag name, an attribute
list and child nodes.  Trees produced by the HTML parser have lowercase tag
and attribute names and no duplicate attribute names; `forestWF` captures
exactly that. -/

mutual
inductive HNode where
  | elem (tag : String) (attrs : List (String × String)) (children : HForest)
  | text (s : String)
inductive HForest where
  | nil
  | cons (head : HNode) (tail : HForest)
end

/-- Build a forest from a list of nodes (notation convenience only). -/
def forestOf : List HNode → HForest
  | [] => HForest.nil
  | n :: rest => HForest.cons n (forestOf rest)

/-- `el.getAttribute(name)` on an attribute list. -/
def getAttrL (attrs : List (String × String)) (name : String) : Option String :=
  (attrs.find? (fun p => p.1 = name)).map (fun p => p.2)

/-- `el.setAttribute(name, v)`: replace the attribute in place if present,
otherwise append it. -/
def setAttrL : List (String × String) → String → String → List (String × String)
  | [], n, v => [(n, v)]
  | (a, b) :: t, n, v => if a = n then (n, v) :: t else (a, b) :: setAttrL t n v

/-- `el.removeAttribute(name)`. -/
def removeAttrL (attrs : List (String × String)) (name : String) : List (String × String) :=
  attrs.filter (fun p => p.1 ≠ name)

/-- Split into maximal non-whitespace runs — `split(/\s+/).filter(Boolean)`.
Fuel is an artifact of totality (`length + 1` always suffices). -/
def wsRuns : Nat → List Char → List String
  | 0, _ => []
  | _ + 1, [] => []
  | fuel + 1, c :: rest =>
    if isWs c then wsRuns fuel rest
    else
      String.mk ((c :: rest).takeWhile (fun d => ¬ isWs d))
        :: wsRuns fuel ((c :: rest).dropWhile (fun d => ¬ isWs d))

/-- Class-name split of a `class` attribute value. -/
def classNamesOf (value : String) : List String := wsRuns (value.data.length + 1) value.data

/-- Keep the first occurrence of each element (JS `Set` insertion order). -/
def dedupKeepFirst : List String → List String
  | [] => []
  | x :: t => x :: (dedupKeepFirst t).filter (fun y => y ≠ x)

/-- `appendClassName(el, className)` (global-search.js 754–764). -/
def appendClassName (attrs : List (String × String)) (c : String) : List (String × String) :=
  let existing := jsTrim ((getAttrL attrs "class").getD "")
  if existing = "" then setAttrL attrs "class" c
  else
    let classes := dedupKeepFirst (classNamesOf existing)
    let classes := if c ∈ classes then classes else classes ++ [c]
    setAttrL attrs "class" (String.intercalate " " classes)

/-- `el.classList.contains(c)`. -/
def classListContains (attrs : List (String × String)) (c : String) : Bool :=
  c ∈ classNamesOf ((getAttrL attrs "class").getD "")

end DevmtgLib

namespace DevmtgLib

/-! ### The style-attribute pattern tests of `applyLegacyStyleSemantics`
(global-search.js 766–783), hand-translated from the regexes. -/

/-- `[A-Za-z0-9_]` (regex word character, for `\b`). -/
def isWordChar (c : Char) : Bool := c.isAlphanum ∨ c = '_'

/-- `p.isPrefixOf l`, returning the remainder on success. -/
def stripPre? (p : List Char) (l : List Char) : Option (List Char) :=
  if p.isPrefixOf l then some (l.drop p.length) else none

/-- Does `p` hold at some position of the list (regex unanchored search)? -/
def scanHas (p : List Char → Bool) : List Char → Bool
  | [] => p []
  | l@(_ :: t) => p l || scanHas p t

/-- Word boundary at the start of `r` (regex `\b` after a word character). -/
def boundaryAt (r : List Char) : Bool :=
  match r with
  | [] => true
  | c :: _ => ¬ isWordChar c

/-- Match `key\s*:\s*` at a position, handing the rest to `valCheck`. -/
def keyColonAt (key : String) (valCheck : List Char → Bool) (l : List Char) : Bool :=
  match stripPre? key.data l with
  | none => false
  | some r1 =>
    match r1.dropWhile isWs with
    | ':' :: r2 => valCheck (r2.dropWhile isWs)
    | _ => false

/-- `/(monospace|courier|menlo|monaco|consolas|sfmono|ui-monospace)/`. -/
def styleMonospace (style : String) : Bool :=
  scanHas (fun l =>
    ["monospace", "courier", "menlo", "monaco", "consolas", "sfmono", "ui-monospace"].any
      (fun w => w.data.isPrefixOf l)) style.data

/-- `/white-space\s*:\s*(pre|pre-wrap|pre-line)/` (first alternative `pre`
already decides the match). -/
def stylePreformatted (style : String) : Bool :=
  scanHas (keyColonAt "white-space" (fun r => "pre".data.isPrefixOf r)) style.data

/-- `/display\s*:\s*block\b/`. -/
def styleBlockCode (style : String) : Bool :=
  scanHas (keyColonAt "display" (fun r =>
    match stripPre? "block".data r with
    | some rest => boundaryAt rest
    | none => false)) style.data

/-- `/background(?:-color)?\s*:/`. -/
def styleCodeSurface (style : String) : Bool :=
  scanHas (fun l =>
    match stripPre? "background".data l with
    | none => false
    | some r =>
      let colon : List Char → Bool := fun x =>
        match x.dropWhile isWs with
        | ':' :: _ => true
        | _ => false
      colon r ||
        (match stripPre? "-color".data r with
         | some r2 => colon r2
         | none => false)) style.data

/-- One alternative of the font-size value pattern: digits `[2-9]\d` /
`[2-9]`, optional `.\d+` fraction, then a unit suffix. -/
def fontSizeNumUnit (first2 : Bool) (unit : String) (r : List Char) : Bool :=
  match r with
  | c1 :: rest =>
    if c1.isDigit ∧ '2' ≤ c1 then
      let afterDigits := if first2 then
        match rest with
        | c2 :: rest2 => if c2.isDigit then some rest2 else none
        | [] => none
      else some rest
      match afterDigits with
      | none => false
      | some r2 =>
        (unit.data.isPrefixOf r2) ||
          (match r2 with
           | '.' :: r3 =>
             let ds := r3.takeWhile Char.isDigit
             ds ≠ [] ∧ unit.data.isPrefixOf (r3.dropWhile Char.isDigit)
           | _ => false)
    else false
  | [] => false

/-- `/font-size\s*:\s*(?:x-large|xx-large|larger|[2-9]\d(?:\.\d+)?px|1\.[6-9]\d*em|[2-9](?:\.\d+)?em)/`. -/
def styleHeadingLike (style : String) : Bool :=
  scanHas (keyColonAt "font-size" (fun r =>
    "x-large".data.isPrefixOf r || "xx-large".data.isPrefixOf r
      || "larger".data.isPrefixOf r
      || fontSizeNumUnit true "px" r
      || (match r with
          | '1' :: '.' :: c :: rest =>
            ('6' ≤ c ∧ c ≤ '9') ∧ "em".data.isPrefixOf (rest.dropWhile Char.isDigit)
          | _ => false)
      || fontSizeNumUnit false "em" r)) style.data

/-- Word-bounded occurrence of `w` inside `l` (`\bw\b`), tracking the
previous character for the left boundary. -/
def hasWordBoundedAux (w : List Char) (prevIsWord : Bool) : List Char → Bool
  | [] => false
  | l@(c :: t) =>
    (!prevIsWord &&
      (match stripPre? w l with
       | some r => boundaryAt r
       | none => false))
    || hasWordBoundedAux w (isWordChar c) t

def hasWordBounded (w : String) (l : List Char) : Bool := hasWordBoundedAux w.data false l

/-- `/text-align\s*:\s*center\b/` or
`/margin(?:-left|-right)?\s*:\s*[^;]*\bauto\b/`. -/
def styleCentered (style : String) : Bool :=
  scanHas (keyColonAt "text-align" (fun r =>
    match stripPre? "center".data r with
    | some rest => boundaryAt rest
    | none => false)) style.data
  || scanHas (fun l =>
      match stripPre? "margin".data l with
      | none => false
      | some r =>
        let tryRest : List Char → Bool := fun rr =>
          match rr.dropWhile isWs with
          | ':' :: r2 => hasWordBounded "auto" (r2.takeWhile (fun c => ¬ c = ';'))
          | _ => false
        tryRest r
          || (match stripPre? "-left".data r with
              | some r2 => tryRest r2
              | none => false)
          || (match stripPre? "-right".data r with
              | some r2 => tryRest r2
              | none => false)) style.data

/-- The classes `applyLegacyStyleSemantics` adds for a given (lowercased) tag
and a `style` attribute value, in source order (global-search.js 766–783). -/
def legacyStyleClasses (tag styleValue : String) : List String :=
  let style := lowerS styleValue
  if style = "" then []
  else
    let monospace := styleMonospace style
    let preformatted := stylePreformatted style
    let blockCode := styleBlockCode style
    let hasCodeSurface := styleCodeSurface style
    let headingLike := styleHeadingLike style
    let centered := styleCentered style
    (if monospace then ["blog-inline-mono"] else [])
    ++ (if preformatted then ["blog-preformatted"] else [])
    ++ (if blockCode ∧ (tag = "code" ∨ tag = "span" ∨ tag = "div") then
          ["blog-code-block-inline"] else [])
    ++ (if hasCodeSurface ∧ (tag = "code" ∨ tag = "pre" ∨ monospace) then
          ["blog-code-surface"] else [])
    ++ (if headingLike ∧ (tag = "span" ∨ tag = "div" ∨ tag = "p" ∨ tag = "strong" ∨ tag = "b") then
          ["blog-heading-like"] else [])
    ++ (if centered ∧ (tag = "div" ∨ tag = "p" ∨ tag = "figure") then
          ["blog-centered"] else [])

end DevmtgLib

namespace DevmtgLib

/-! ### The sanitizer passes (global-search.js 810–863 and 785–808) -/

/-- The selector list of blocked elements (global-search.js 814). -/
def blockedTags : List String :=
  ["script", "style", "iframe", "object", "embed", "form", "meta", "link", "base"]

mutual
/-- Pass 1 of `sanitizeHtmlFragment`: remove every blocked element together
with its content (`querySelectorAll(blocked).forEach(n => n.remove())`). -/
def removeBlockedN : HNode → HNode
  | HNode.text s => HNode.text s
  | HNode.elem t a c => HNode.elem t a (removeBlockedF c)
def removeBlockedF : HForest → HForest
  | HForest.nil => HForest.nil
  | HForest.cons (HNode.elem t a c) rest =>
    if lowerS t ∈ blockedTags then removeBlockedF rest
    else HForest.cons (HNode.elem t a (removeBlockedF c)) (removeBlockedF rest)
  | HForest.cons (HNode.text s) rest => HForest.cons (HNode.text s) (removeBlockedF rest)
end

/-- One iteration of the attribute loop of `sanitizeHtmlFragment`
(global-search.js 819–858): `attr` is the snapshot entry being processed,
`work` the element's current attribute list. -/
def sanitizeAttrStep (base loc tag : String) (work : List (String × String))
    (attr : String × String) : List (String × String) :=
  let name := lowerS attr.1
  if jsStartsWith name "on" ∨ name = "srcdoc" then removeAttrL work attr.1
  else if name = "style" then
    removeAttrL ((legacyStyleClasses (lowerS tag) attr.2).foldl appendClassName work) attr.1
  else if name = "href" then
    let safe := resolveContentUrl attr.2 base loc false
    if safe = "" then removeAttrL work attr.1
    else
      let work := setAttrL work "href" safe
      if lowerS tag = "a" then
        setAttrL (setAttrL work "target" "_blank") "rel" "noopener noreferrer"
      else work
  else if name = "src" then
    let safe := resolveContentUrl attr.2 base loc true
    if safe = "" then removeAttrL work attr.1 else setAttrL work "src" safe
  else if name = "srcset" then removeAttrL work attr.1
  else work

/-- The whole attribute loop for one element: iterate over the snapshot
`[...el.attributes]` while mutating the live list. -/
def sanitizeAttrsOf (base loc tag : String) (attrs : List (String × String)) :
    List (String × String) :=
  attrs.foldl (sanitizeAttrStep base loc tag) attrs

mutual
/-- Pass 2 of `sanitizeHtmlFragment`: the attribute rewrite applied to every
element (`template.content.querySelectorAll('*')`). -/
def sanitizeAttrsN (base loc : String) : HNode → HNode
  | HNode.text s => HNode.text s
  | HNode.elem t a c =>
    HNode.elem t (sanitizeAttrsOf base loc t a) (sanitizeAttrsF base loc c)
def sanitizeAttrsF (base loc : String) : HForest → HForest
  | HForest.nil => HForest.nil
  | HForest.cons n rest => HForest.cons (sanitizeAttrsN base loc n) (sanitizeAttrsF base loc rest)
end

mutual
/-- `normalizeLegacyCodeMarkup`, first loop (global-search.js 788): every
`pre` element gains class `blog-code-block`. -/
def preClassN : HNode → HNode
  | HNode.text s => HNode.text s
  | HNode.elem t a c =>
    if lowerS t = "pre" then HNode.elem t (appendClassName a "blog-code-block") (preClassF c)
    else HNode.elem t a (preClassF c)
def preClassF : HForest → HForest
  | HForest.nil => HForest.nil
  | HForest.cons n rest => HForest.cons (preClassN n) (preClassF rest)
end

mutual
/-- `normalizeLegacyCodeMarkup`, second loop (global-search.js 789): every
`code` that is a direct child of a `pre` gains class `blog-code`.
`parentIsPre` tracks the parent element's tag. -/
def preCodeClassN (parentIsPre : Bool) : HNode → HNode
  | HNode.text s => HNode.text s
  | HNode.elem t a c =>
    let isPre := lowerS t = "pre"
    if parentIsPre ∧ lowerS t = "code" then
      HNode.elem t (appendClassName a "blog-code") (preCodeClassF isPre c)
    else HNode.elem t a (preCodeClassF isPre c)
def preCodeClassF (parentIsPre : Bool) : HForest → HForest
  | HForest.nil => HForest.nil
  | HForest.cons n rest =>
    HForest.cons (preCodeClassN parentIsPre n) (preCodeClassF parentIsPre rest)
end

mutual
/-- `node.textContent`: concatenated text descendants. -/
def textContentN : HNode → String
  | HNode.text s => s
  | HNode.elem _ _ c => textContentF c
def textContentF : HForest → String
  | HForest.nil => ""
  | HForest.cons n rest => textContentN n ++ textContentF rest
end

mutual
/-- `el.querySelector('br') !== null`: some descendant is a `br` element. -/
def hasBrN : HNode → Bool
  | HNode.text _ => false
  | HNode.elem t _ c => lowerS t = "br" || hasBrF c
def hasBrF : HForest → Bool
  | HForest.nil => false
  | HForest.cons n rest => hasBrN n || hasBrF rest
end

mutual
/-- `normalizeLegacyCodeMarkup`, third loop (global-search.js 791–807): a
`code` with no `pre` ancestor that has a line break, a `br`, or the
`blog-preformatted` / `blog-code-block-inline` class is replaced by a fresh
`pre.blog-code-block` wrapping a clone of the `code` with class `blog-code`.
The source iterates a snapshot and mutates with `replaceWith`; a promoted
clone's inner `code` elements are left untouched, which the recursion mirrors
by not descending into promoted nodes. -/
def promoteCodeN (insidePre : Bool) : HNode → HNode
  | HNode.text s => HNode.text s
  | HNode.elem t a c =>
    let tl := lowerS t
    if tl = "code" ∧ ¬ insidePre then
      let hasLineBreak := jsIncludes (textContentF c) "\n" || hasBrF c
      let wantsBlock := hasLineBreak || classListContains a "blog-preformatted"
        || classListContains a "blog-code-block-inline"
      if wantsBlock then
        let preAttrs := appendClassName [] "blog-code-block"
        let preAttrs := if classListContains a "blog-code-surface" then
          appendClassName preAttrs "blog-code-surface" else preAttrs
        HNode.elem "pre" preAttrs
          (HForest.cons (HNode.elem t (appendClassName a "blog-code") c) HForest.nil)
      else HNode.elem t a (promoteCodeF insidePre c)
    else HNode.elem t a (promoteCodeF (insidePre ∨ tl = "pre") c)
def promoteCodeF (insidePre : Bool) : HForest → HForest
  | HForest.nil => HForest.nil
  | HForest.cons n rest =>
    HForest.cons (promoteCodeN insidePre n) (promoteCodeF insidePre rest)
end

end DevmtgLib

namespace DevmtgLib

/-! ### Checkers for the sanitizer invariants -/

/-- Is a surviving `href` value safe in the sense of the specification:
a same-document fragment or one of the four allowed schemes? -/
def hrefValueSafe (v : String) : Bool :=
  jsStartsWith v "#" ∨ jsStartsWith v "http:" ∨ jsStartsWith v "https:"
    ∨ jsStartsWith v "mailto:" ∨ jsStartsWith v "tel:"

mutual
/-- No blocked element anywhere in the tree. -/
def noBlockedN : HNode → Bool
  | HNode.text _ => true
  | HNode.elem t _ c => decide (lowerS t ∉ blockedTags) && noBlockedF c
def noBlockedF : HForest → Bool
  | HForest.nil => true
  | HForest.cons n rest => noBlockedN n && noBlockedF rest
end

mutual
/-- No attribute whose (lowercased) name starts with `on`. -/
def noOnAttrsN : HNode → Bool
  | HNode.text _ => true
  | HNode.elem _ a c =>
    a.all (fun p => !(jsStartsWith (lowerS p.1) "on")) && noOnAttrsF c
def noOnAttrsF : HForest → Bool
  | HForest.nil => true
  | HForest.cons n rest => noOnAttrsN n && noOnAttrsF rest
end

mutual
/-- Every `href` attribute in the tree carries a safe value. -/
def hrefsSafeN : HNode → Bool
  | HNode.text _ => true
  | HNode.elem _ a c =>
    (match getAttrL a "href" with
     | some v => hrefValueSafe v
     | none => true) && hrefsSafeF c
def hrefsSafeF : HForest → Bool
  | HForest.nil => true
  | HForest.cons n rest => hrefsSafeN n && hrefsSafeF rest
end

mutual
/-- Every anchor that kept an `href` carries `target="_blank"` and
`rel="noopener noreferrer"`. -/
def anchorsHardenedN : HNode → Bool
  | HNode.text _ => true
  | HNode.elem t a c =>
    (if lowerS t = "a" ∧ (getAttrL a "href").isSome then
      decide (getAttrL a "target" = some "_blank"
        ∧ getAttrL a "rel" = some "noopener noreferrer")
     else true) && anchorsHardenedF c
def anchorsHardenedF : HForest → Bool
  | HForest.nil => true
  | HForest.cons n rest => anchorsHardenedN n && anchorsHardenedF rest
end

/-- Attribute names are duplicate-free. -/
def nodupNames : List (String × String) → Bool
  | [] => true
  | p :: t => decide (¬ (t.map Prod.fst).contains p.1) && nodupNames t

mutual
/-- Well-formedness of a parsed DOM tree: lowercase tag names, lowercase and
duplicate-free attribute names — every tree produced by the browser's HTML
parser satisfies this. -/
def wfN : HNode → Bool
  | HNode.text _ => true
  | HNode.elem t a c =>
    decide (lowerS t = t) && nodupNames a
      && a.all (fun p => decide (lowerS p.1 = p.1)) && wfF c
def wfF : HForest → Bool
  | HForest.nil => true
  | HForest.cons n rest => wfN n && wfF rest
end

end DevmtgLib

namespace DevmtgLib

/-! ## global-search.js — markdown helpers -/

/-- `escapeHtml` (global-search.js 246–253).  The source applies four global
replaces in sequence (`&`, `<`, `>`, `"`); since no replacement string
contains a character replaced later, this equals a single per-character
map. -/
def escapeHtml (s : String) : String :=
  String.join (s.data.map (fun c =>
    if c = '&' then "&amp;"
    else if c = '<' then "&lt;"
    else if c = '>' then "&gt;"
    else if c = '"' then "&quot;"
    else String.mk [c]))

/-- The backtick character (code 96). -/
def backtick : Char := Char.ofNat 96

/-- The apostrophe character (code 39). -/
def apos : Char := Char.ofNat 39

/-- Model of `s.split(from).join(to)` for a nonempty `from` (how the source
replaces placeholders).  Fuel: `length + 1` always suffices. -/
def replaceAllL (fromCs toCs : List Char) : Nat → List Char → List Char
  | 0, _ => []
  | _ + 1, [] => []
  | fuel + 1, l@(c :: rest) =>
    if fromCs ≠ [] ∧ fromCs.isPrefixOf l then
      toCs ++ replaceAllL fromCs toCs fuel (l.drop fromCs.length)
    else c :: replaceAllL fromCs toCs fuel rest

def replaceAllStr (s fromS toS : String) : String :=
  String.mk (replaceAllL fromS.data toS.data (s.data.length + 1) s.data)

/-- Collapse every whitespace run to a single space —
`replace(/\s+/g, ' ')`. -/
def collapseWsRuns : Nat → List Char → List Char
  | 0, _ => []
  | _ + 1, [] => []
  | fuel + 1, c :: rest =>
    if isWs c then ' ' :: collapseWsRuns fuel ((c :: rest).dropWhile isWs)
    else c :: collapseWsRuns fuel rest

def collapseWs (s : String) : String := String.mk (collapseWsRuns (s.data.length + 1) s.data)

/-- `normalizeReferenceLabel` (global-search.js 902–904). -/
def normalizeReferenceLabel (label : String) : String :=
  lowerS (collapseWs (jsTrim label))

/-- Case-insensitive literal prefix (for `/i` regexes); returns the remainder
of the original list. -/
def stripPreCI? : List Char → List Char → Option (List Char)
  | [], l => some l
  | _ :: _, [] => none
  | p :: ps, c :: cs => if c.toLower = p then stripPreCI? ps cs else none

/-- The inline tag names preserved by `preserveInlineHtmlPlaceholders`
(global-search.js 867), in the regex's alternation order. -/
def inlineKeepTags : List String :=
  ["mark", "kbd", "samp", "sub", "sup", "br", "em", "strong", "tt", "ins", "del"]

/-- Try the tag-name alternation of `/<\/?(mark|kbd|…)\b[^>]*>/i` against
`l`: first alternative that is a case-insensitive prefix followed by a word
boundary wins; returns the (lowercased) tag and the remainder. -/
def matchInlineTagName (l : List Char) : Option (String × List Char) :=
  (inlineKeepTags.filterMap (fun tag =>
    match stripPreCI? tag.data l with
    | some r => if boundaryAt r then some (tag, r) else none
    | none => none)).head?

/-- Attempt the full inline-tag regex at the start of `l` (which begins after
a `<`): optional `/`, a kept tag name with boundary, then `[^>]*` up to a
mandatory `>`.  Returns `(isClosing, tag, rest-after-match)`. -/
def matchInlineTagAt (l : List Char) : Option (Bool × String × List Char) :=
  let (isClosing, afterSlash) : Bool × List Char :=
    match l with
    | '/' :: r => (true, r)
    | r => (false, r)
  match matchInlineTagName afterSlash with
  | none => none
  | some (tag, afterTag) =>
    let inside := afterTag.takeWhile (fun c => ¬ c = '>')
    match afterTag.drop inside.length with
    | '>' :: rest => some (isClosing, tag, rest)
    | _ => none

/-- `sanitizeInlineTag` (global-search.js 868–882) restricted to tags the
outer regex matched: rebuild a bare `<tag>`/`</tag>`, dropping `</br>` and
normalizing `<br …>` to `<br>`. -/
def sanitizeInlineTag (isClosing : Bool) (tag : String) : String :=
  if isClosing then (if tag = "br" then "" else "</" ++ tag ++ ">")
  else (if tag = "br" then "<br>" else "<" ++ tag ++ ">")

/-- The scan of `preserveInlineHtmlPlaceholders` (global-search.js 884–890):
each matched inline tag becomes `@@BLOGHTMLTAG<n>@@` (or is dropped when the
sanitized tag is empty); everything else passes through. -/
def preserveInlineScan : Nat → Nat → List Char → List Char × List (String × String)
  | 0, _, _ => ([], [])
  | _ + 1, _, [] => ([], [])
  | fuel + 1, n, c :: rest =>
    if c = '<' then
      match matchInlineTagAt rest with
      | some (isClosing, tag, after) =>
        let sanitized := sanitizeInlineTag isClosing tag
        if sanitized = "" then preserveInlineScan fuel n after
        else
          let ph := "@@BLOGHTMLTAG" ++ toString n ++ "@@"
          let (cs, phs) := preserveInlineScan fuel (n + 1) after
          (ph.data ++ cs, (ph, sanitized) :: phs)
      | none =>
        let (cs, phs) := preserveInlineScan fuel n rest
        (c :: cs, phs)
    else
      let (cs, phs) := preserveInlineScan fuel n rest
      (c :: cs, phs)

/-- `preserveInlineHtmlPlaceholders(text)` (global-search.js 865–892). -/
def preserveInlineHtmlPlaceholders (text : String) : String × List (String × String) :=
  let r := preserveInlineScan (text.data.length + 1) 0 text.data
  (String.mk r.1, r.2)

/-- `restoreInlineHtmlPlaceholders` (global-search.js 894–900). -/
def restoreInlineHtmlPlaceholders (text : String) (phs : List (String × String)) : String :=
  phs.foldl (fun out p => replaceAllStr out p.1 p.2) text

end DevmtgLib

namespace DevmtgLib

/-! ### Markdown reference definitions (global-search.js 902–959) -/

/-- A reference entry `{url, title}`. -/
structure RefEntry where
  url : String
  title : String
deriving DecidableEq, Repr

/-- `references.set(key, entry)` — JS `Map.set` replaces an existing key in
place, else appends. -/
def refSet : List (String × RefEntry) → String → RefEntry → List (String × RefEntry)
  | [], k, e => [(k, e)]
  | (a, b) :: t, k, e => if a = k then (k, e) :: t else (a, b) :: refSet t k e

/-- `getMarkdownReferenceLink(referenceMap, label)` (global-search.js
954–959). -/
def getMarkdownReferenceLink (refs : List (String × RefEntry)) (label : String) :
    Option RefEntry :=
  let key := normalizeReferenceLabel label
  if key = "" then none
  else (refs.find? (fun p => p.1 = key)).map (fun p => p.2)

/-- Parse the optional title part of a reference definition:
`(?:\s+(?:"([^"]*)"|'([^']*)'|\(([^)]+)\)))?\s*$` applied after the url.
Returns `none` when the regex fails, `some title` otherwise. -/
def refTitlePart (cs : List Char) : Option String :=
  if jsTrimL cs = [] then some ""
  else
    let ws := cs.takeWhile isWs
    if ws = [] then none
    else
      match cs.dropWhile isWs with
      | '"' :: r =>
        let inner := r.takeWhile (fun c => ¬ c = '"')
        (match r.drop inner.length with
         | '"' :: tail => if jsTrimL tail = [] then some (String.mk inner) else none
         | _ => none)
      | '(' :: r =>
        let inner := r.takeWhile (fun c => ¬ c = ')')
        if inner = [] then none
        else
          (match r.drop inner.length with
           | ')' :: tail => if jsTrimL tail = [] then some (String.mk inner) else none
           | _ => none)
      | q :: r =>
        if q = apos then
          let inner := r.takeWhile (fun c => ¬ c = apos)
          (match r.drop inner.length with
           | t0 :: tail =>
             if t0 = apos ∧ jsTrimL tail = [] then some (String.mk inner) else none
           | _ => none)
        else none
      | [] => none

/-- The anchored reference-definition regex
`/^\s{0,3}\[([^\]]+)\]:\s*(\S+)(?:\s+(?:"…"|'…'|(…)))?\s*$/` (global-search.js
931).  Returns `(label, rawUrl, title)`. -/
def lineRefMatch (line : String) : Option (String × String × String) :=
  let cs := line.data
  let lead := cs.takeWhile isWs
  if 3 < lead.length then none
  else
    match cs.dropWhile isWs with
    | '[' :: r1 =>
      let label := r1.takeWhile (fun c => ¬ c = ']')
      if label = [] then none
      else
        (match r1.drop label.length with
         | ']' :: ':' :: r2 =>
           let afterWs := r2.dropWhile isWs
           let url := afterWs.takeWhile (fun c => ¬ isWs c)
           if url = [] then none
           else
             (match refTitlePart (afterWs.drop url.length) with
              | some title => some (String.mk label, String.mk url, title)
              | none => none)
         | _ => none)
    | _ => none

/-- State of the reference-extraction loop. -/
structure RefScanState where
  contentLines : List String := []
  references : List (String × RefEntry) := []
  codeFenceMarker : String := ""
deriving Repr

/-- Does the trimmed line start a/close a fence for the *prefix* regex
`/^(```|~~~)/`?  Returns the matched marker. -/
def fencePrefixOf (trimmed : String) : Option String :=
  if jsStartsWith trimmed "```" then some "```"
  else if jsStartsWith trimmed "~~~" then some "~~~"
  else none

/-- One line of `extractMarkdownReferenceDefinitions` (global-search.js
911–949). -/
def refScanStep (base loc : String) (st : RefScanState) (line : String) : RefScanState :=
  let trimmed := jsTrim line
  match fencePrefixOf trimmed with
  | some marker =>
    let newMarker :=
      if st.codeFenceMarker ≠ "" then
        (if marker = st.codeFenceMarker then "" else st.codeFenceMarker)
      else marker
    { st with contentLines := st.contentLines ++ [line], codeFenceMarker := newMarker }
  | none =>
    if st.codeFenceMarker ≠ "" then { st with contentLines := st.contentLines ++ [line] }
    else
      match lineRefMatch line with
      | none => { st with contentLines := st.contentLines ++ [line] }
      | some (label, rawUrl0, title) =>
        let key := normalizeReferenceLabel label
        if key = "" then st
        else
          let rawUrl :=
            if jsStartsWith rawUrl0 "<" ∧ jsEndsWith rawUrl0 ">" then
              jsTrim (String.mk (rawUrl0.data.drop 1 |>.dropLast))
            else rawUrl0
          let safeUrl := resolveContentUrl rawUrl base loc false
          if safeUrl = "" then st
          else { st with references := refSet st.references key ⟨safeUrl, jsTrim title⟩ }

/-- `extractMarkdownReferenceDefinitions(lines, baseUrl)` (global-search.js
906–952). -/
def extractMarkdownReferenceDefinitions (lines : List String) (base loc : String) :
    RefScanState :=
  lines.foldl (refScanStep base loc) {}

end DevmtgLib

namespace DevmtgLib

/-! ### The inline-markdown passes of `formatInlineMarkdown`
(global-search.js 1213–1268), one scanner per global regex replace.  Every
scanner advances through its input left to right (fuel `length + 1` always
suffices); a failed match at a position advances one character, exactly like
the regex engine. -/

/-- Parse `\(([^)\s]+)(?:\s+"([^"]*)")?\)` — the `(url "title")` tail of an
inline link/image.  Returns `(url, title group, rest)`. -/
def linkUrlPart (l : List Char) : Option (String × Option String × List Char) :=
  match l with
  | '(' :: r =>
    let url := r.takeWhile (fun c => ¬ (c = ')' ∨ isWs c))
    if url = [] then none
    else
      (match r.drop url.length with
       | ')' :: rest => some (String.mk url, none, rest)
       | c :: _ =>
         if isWs c then
           (match (r.drop url.length).dropWhile isWs with
            | '"' :: r2 =>
              let inner := r2.takeWhile (fun d => ¬ d = '"')
              (match r2.drop inner.length with
               | '"' :: ')' :: rest => some (String.mk url, some (String.mk inner), rest)
               | _ => none)
            | _ => none)
         else none
       | [] => none)
  | _ => none

/-- ` title="…"` attribute when the title group is truthy. -/
def titleAttrOf (title : Option String) : String :=
  match title with
  | some t => if t ≠ "" then " title=\"" ++ escapeHtml t ++ "\"" else ""
  | none => ""

/-- The image pass `!\[([^\]]*)\]\(([^)\s]+)(?:\s+"([^"]*)")?\)`
(global-search.js 1218–1224). -/
def imageScan (base loc : String) : Nat → List Char → List Char
  | 0, _ => []
  | _ + 1, [] => []
  | fuel + 1, '!' :: '[' :: r =>
    let alt := r.takeWhile (fun c => ¬ c = ']')
    (match r.drop alt.length with
     | ']' :: r2 =>
       (match linkUrlPart r2 with
        | some (url, title, rest) =>
          let safeUrl := resolveContentUrl url base loc true
          let rep :=
            if safeUrl = "" then ""
            else "<img src=\"" ++ escapeHtml safeUrl ++ "\" alt=\""
              ++ escapeHtml (String.mk alt) ++ "\" loading=\"lazy\"" ++ titleAttrOf title ++ ">"
          rep.data ++ imageScan base loc fuel rest
        | none => '!' :: imageScan base loc fuel ('[' :: r))
     | _ => '!' :: imageScan base loc fuel ('[' :: r))
  | fuel + 1, c :: rest => c :: imageScan base loc fuel rest

/-- The link pass `\[([^\]]+)\]\(([^)\s]+)(?:\s+"([^"]*)")?\)`
(global-search.js 1226–1231); a link whose URL is rejected degrades to its
escaped label. -/
def linkScan (base loc : String) : Nat → List Char → List Char
  | 0, _ => []
  | _ + 1, [] => []
  | fuel + 1, '[' :: r =>
    let label := r.takeWhile (fun c => ¬ c = ']')
    if label = [] then '[' :: linkScan base loc fuel r
    else
      (match r.drop label.length with
       | ']' :: r2 =>
         (match linkUrlPart r2 with
          | some (url, title, rest) =>
            let safeUrl := resolveContentUrl url base loc false
            let rep :=
              if safeUrl = "" then escapeHtml (String.mk label)
              else "<a href=\"" ++ escapeHtml safeUrl
                ++ "\" target=\"_blank\" rel=\"noopener noreferrer\"" ++ titleAttrOf title
                ++ ">" ++ escapeHtml (String.mk label) ++ "</a>"
            rep.data ++ linkScan base loc fuel rest
          | none => '[' :: linkScan base loc fuel r)
       | _ => '[' :: linkScan base loc fuel r)
  | fuel + 1, c :: rest => c :: linkScan base loc fuel rest

/-- The reference-image pass `!\[([^\]]*)\]\[([^\]]*)\]` (global-search.js
1233–1239); an unknown reference leaves the match untouched. -/
def imageRefScan (refs : List (String × RefEntry)) : Nat → List Char → List Char
  | 0, _ => []
  | _ + 1, [] => []
  | fuel + 1, '!' :: '[' :: r =>
    let alt := r.takeWhile (fun c => ¬ c = ']')
    (match r.drop alt.length with
     | ']' :: '[' :: r2 =>
       let label := r2.takeWhile (fun c => ¬ c = ']')
       (match r2.drop label.length with
        | ']' :: rest =>
          let refLabel := if label ≠ [] then String.mk label else String.mk alt
          let matched := '!' :: '[' :: alt ++ ']' :: '[' :: label ++ [']']
          (match getMarkdownReferenceLink refs refLabel with
           | none => matched ++ imageRefScan refs fuel rest
           | some ref =>
             let rep := "<img src=\"" ++ escapeHtml ref.url ++ "\" alt=\""
               ++ escapeHtml (String.mk alt) ++ "\" loading=\"lazy\""
               ++ (if ref.title ≠ "" then " title=\"" ++ escapeHtml ref.title ++ "\"" else "")
               ++ ">"
             rep.data ++ imageRefScan refs fuel rest)
        | _ => '!' :: imageRefScan refs fuel ('[' :: r))
     | _ => '!' :: imageRefScan refs fuel ('[' :: r))
  | fuel + 1, c :: rest => c :: imageRefScan refs fuel rest

/-- The reference-link pass `\[([^\]]+)\]\[([^\]]*)\]` (global-search.js
1241–1247). -/
def linkRefScan (refs : List (String × RefEntry)) : Nat → List Char → List Char
  | 0, _ => []
  | _ + 1, [] => []
  | fuel + 1, '[' :: r =>
    let label := r.takeWhile (fun c => ¬ c = ']')
    if label = [] then '[' :: linkRefScan refs fuel r
    else
      (match r.drop label.length with
       | ']' :: '[' :: r2 =>
         let refLabel0 := r2.takeWhile (fun c => ¬ c = ']')
         (match r2.drop refLabel0.length with
          | ']' :: rest =>
            let lookup := if refLabel0 ≠ [] then String.mk refLabel0 else String.mk label
            let matched := '[' :: label ++ ']' :: '[' :: refLabel0 ++ [']']
            (match getMarkdownReferenceLink refs lookup with
             | none => matched ++ linkRefScan refs fuel rest
             | some ref =>
               let rep := "<a href=\"" ++ escapeHtml ref.url
                 ++ "\" target=\"_blank\" rel=\"noopener noreferrer\""
                 ++ (if ref.title ≠ "" then " title=\"" ++ escapeHtml ref.title ++ "\"" else "")
                 ++ ">" ++ escapeHtml (String.mk label) ++ "</a>"
               rep.data ++ linkRefScan refs fuel rest)
          | _ => '[' :: linkRefScan refs fuel r)
       | _ => '[' :: linkRefScan refs fuel r)
  | fuel + 1, c :: rest => c :: linkRefScan refs fuel rest

/-- The bare-reference pass `\[([^\]]+)\]` (global-search.js 1249–1258),
with the source's previous-`!`/following-`(` guard; `prev` is the previous
character of the pass's own input. -/
def bareRefScan (refs : List (String × RefEntry)) (prev : Option Char) :
    Nat → List Char → List Char
  | 0, _ => []
  | _ + 1, [] => []
  | fuel + 1, '[' :: r =>
    let label := r.takeWhile (fun c => ¬ c = ']')
    if label = [] then '[' :: bareRefScan refs (some '[') fuel r
    else
      (match r.drop label.length with
       | ']' :: rest =>
         let matched := '[' :: label ++ [']']
         let guard := prev = some '!' ∨ rest.head? = some '('
         if guard then matched ++ bareRefScan refs (some ']') fuel rest
         else
           (match getMarkdownReferenceLink refs (String.mk label) with
            | none => matched ++ bareRefScan refs (some ']') fuel rest
            | some ref =>
              let rep := "<a href=\"" ++ escapeHtml ref.url
                ++ "\" target=\"_blank\" rel=\"noopener noreferrer\""
                ++ (if ref.title ≠ "" then " title=\"" ++ escapeHtml ref.title ++ "\"" else "")
                ++ ">" ++ escapeHtml (String.mk label) ++ "</a>"
              rep.data ++ bareRefScan refs (some ']') fuel rest)
       | _ => '[' :: bareRefScan refs (some '[') fuel r)
  | fuel + 1, c :: rest => c :: bareRefScan refs (some c) fuel rest

/-- The inline-code pass: backtick, `[^`]+`, backtick (global-search.js 1260),
re-escaping the span's content. -/
def codeTickScan : Nat → List Char → List Char
  | 0, _ => []
  | _ + 1, [] => []
  | fuel + 1, c :: rest =>
    if c = backtick then
      let inner := rest.takeWhile (fun d => ¬ d = backtick)
      if inner ≠ [] ∧ (rest.drop inner.length).head? = some backtick then
        ("<code>" ++ escapeHtml (String.mk inner) ++ "</code>").data
          ++ codeTickScan fuel (rest.drop (inner.length + 1))
      else c :: codeTickScan fuel rest
    else c :: codeTickScan fuel rest

/-- One delimiter-sandwich pass (`**…**`, `__…__`, `*…*`, `_…_`, `~~…~~`):
`delim ([^bad]+) delim` replaced by `pre $1 post` (global-search.js
1261–1265). -/
def sandwichScan (delim : List Char) (bad : Char) (pre post : String) :
    Nat → List Char → List Char
  | 0, _ => []
  | _ + 1, [] => []
  | fuel + 1, l@(c :: rest) =>
    if delim.isPrefixOf l then
      let r := l.drop delim.length
      let inner := r.takeWhile (fun d => ¬ d = bad)
      if inner ≠ [] ∧ delim.isPrefixOf (r.drop inner.length) then
        pre.data ++ inner ++ post.data
          ++ sandwichScan delim bad pre post fuel ((r.drop inner.length).drop delim.length)
      else c :: sandwichScan delim bad pre post fuel rest
    else c :: sandwichScan delim bad pre post fuel rest

/-- Run one scanner pass over a whole string. -/
def runScan (scan : Nat → List Char → List Char) (s : String) : String :=
  String.mk (scan (s.data.length + 1) s.data)

/-- `formatInlineMarkdown(text, baseUrl, referenceMap)` (global-search.js
1213–1268): placeholder-protect inline HTML, escape, then the eleven regex
passes in source order, then restore placeholders. -/
def formatInlineMarkdown (text base loc : String) (refs : List (String × RefEntry)) : String :=
  if text = "" then ""
  else
    let p := preserveInlineHtmlPlaceholders text
    let html := escapeHtml p.1
    let html := runScan (imageScan base loc) html
    let html := runScan (linkScan base loc) html
    let html := runScan (imageRefScan refs) html
    let html := runScan (linkRefScan refs) html
    let html := runScan (bareRefScan refs none) html
    let html := runScan codeTickScan html
    let html := runScan (sandwichScan "**".data '*' "<strong>" "</strong>") html
    let html := runScan (sandwichScan "__".data '_' "<strong>" "</strong>") html
    let html := runScan (sandwichScan "*".data '*' "<em>" "</em>") html
    let html := runScan (sandwichScan "_".data '_' "<em>" "</em>") html
    let html := runScan (sandwichScan "~~".data '~' "<del>" "</del>") html
    restoreInlineHtmlPlaceholders html p.2

end DevmtgLib

namespace DevmtgLib

/-! ### The markdown line machine `renderMarkdownToHtml`
(global-search.js 1270–1400) -/

/-- The accumulators of the line loop. -/
structure MdState where
  out : List String := []
  paragraph : List String := []
  listType : String := ""
  listItems : List String := []
  codeFenceMarker : String := ""
  codeFenceLanguage : String := ""
  codeLines : List String := []
deriving Repr

/-- `/^(```|~~~)\s*([A-Za-z0-9_+-]*)\s*$/` on a trimmed line; returns
`(marker, language)`. -/
def fenceFullMatch (trimmed : String) : Option (String × String) :=
  match fencePrefixOf trimmed with
  | none => none
  | some marker =>
    let r := (trimmed.data.drop 3).dropWhile isWs
    let lang := r.takeWhile (fun c => c.isAlphanum ∨ c = '_' ∨ c = '+' ∨ c = '-')
    if (r.drop lang.length).dropWhile isWs = [] then some (marker, String.mk lang)
    else none

/-- `/^<[^>]+>/.test(trimmed)`. -/
def htmlLineStarts (trimmed : String) : Bool :=
  match trimmed.data with
  | '<' :: r =>
    let run := r.takeWhile (fun c => ¬ c = '>')
    run ≠ [] ∧ r.drop run.length ≠ []
  | _ => false

/-- The tag alternation of `htmlTagRe` (global-search.js 1280). -/
def blockHtmlTags : List String :=
  ["a", "p", "div", "span", "img", "h1", "h2", "h3", "h4", "h5", "h6",
   "ul", "ol", "li", "blockquote", "table", "thead", "tbody", "tr", "td", "th",
   "pre", "code", "br", "hr", "details", "summary", "figure", "figcaption",
   "mark", "kbd", "samp"]

/-- `htmlTagRe.test(trimmed)`: `/<\/?(a|p|…)\b/i` anywhere in the line. -/
def htmlTagAnywhere (trimmed : String) : Bool :=
  scanHas (fun l =>
    match l with
    | '<' :: r =>
      let r2 := match r with
        | '/' :: x => x
        | x => x
      blockHtmlTags.any (fun tag =>
        match stripPreCI? tag.data r2 with
        | some rest => boundaryAt rest
        | none => false)
    | _ => false) trimmed.data

/-- `/^(#{1,6})\s+(.*)$/`. -/
def headingMatch (trimmed : String) : Option (Nat × String) :=
  let hashes := trimmed.data.takeWhile (fun c => c = '#')
  let rest := trimmed.data.drop hashes.length
  if 1 ≤ hashes.length ∧ hashes.length ≤ 6 ∧ (rest.head?.map isWs) = some true then
    some (hashes.length, String.mk (rest.dropWhile isWs))
  else none

/-- `/^([-*_])\1{2,}$/`. -/
def hrMatchTest (trimmed : String) : Bool :=
  match trimmed.data with
  | c :: rest =>
    (c = '-' ∨ c = '*' ∨ c = '_') ∧ 2 ≤ rest.length ∧ rest.all (fun d => d = c)
  | [] => false

/-- `/^[-*+]\s+(.*)$/`. -/
def unorderedMatch (trimmed : String) : Option String :=
  match trimmed.data with
  | c :: rest =>
    if (c = '-' ∨ c = '*' ∨ c = '+') ∧ (rest.head?.map isWs) = some true then
      some (String.mk (rest.dropWhile isWs))
    else none
  | [] => none

/-- `/^\d+[.)]\s+(.*)$/`. -/
def orderedMatch (trimmed : String) : Option String :=
  let digits := trimmed.data.takeWhile Char.isDigit
  if digits = [] then none
  else
    match trimmed.data.drop digits.length with
    | c :: rest =>
      if (c = '.' ∨ c = ')') ∧ (rest.head?.map isWs) = some true then
        some (String.mk (rest.dropWhile isWs))
      else none
    | [] => none

/-- `/^>\s?(.*)$/`. -/
def quoteMatch (trimmed : String) : Option String :=
  match trimmed.data with
  | '>' :: rest =>
    some (String.mk (match rest with
      | c :: t => if isWs c then t else rest
      | [] => []))
  | _ => none

/-- `flushParagraph` (global-search.js 1282–1287). -/
def flushParagraphSt (base loc : String) (refs : List (String × RefEntry)) (st : MdState) :
    MdState :=
  if st.paragraph = [] then st
  else
    let text := jsTrim (collapseWs (String.intercalate " " st.paragraph))
    if text = "" then { st with paragraph := [] }
    else
      let newOut := st.out ++ ["<p>" ++ formatInlineMarkdown text base loc refs ++ "</p>"]
      { st with paragraph := [], out := newOut }

/-- `flushList` (global-search.js 1289–1298). -/
def flushListSt (base loc : String) (refs : List (String × RefEntry)) (st : MdState) :
    MdState :=
  if st.listType = "" ∨ st.listItems = [] then { st with listType := "", listItems := [] }
  else
    let items := String.join (st.listItems.map (fun item =>
      "<li>" ++ formatInlineMarkdown item base loc refs ++ "</li>"))
    let newOut := st.out ++ ["<" ++ st.listType ++ ">" ++ items ++ "</" ++ st.listType ++ ">"]
    { st with listType := "", listItems := [], out := newOut }

/-- `flushCode` (global-search.js 1300–1308). -/
def flushCodeSt (st : MdState) : MdState :=
  if st.codeFenceMarker = "" then st
  else
    let language := lowerS (String.mk (st.codeFenceLanguage.data.filter
      (fun c => c.isAlphanum ∨ c = '_' ∨ c = '+' ∨ c = '-')))
    let classAttr := if language ≠ "" then
      " class=\"language-" ++ escapeHtml language ++ "\"" else ""
    let newOut := st.out ++ ["<pre><code" ++ classAttr ++ ">"
      ++ escapeHtml (String.intercalate "\n" st.codeLines) ++ "</code></pre>"]
    { st with codeFenceMarker := "", codeFenceLanguage := "", codeLines := [], out := newOut }

/-- The body of the line loop of `renderMarkdownToHtml` (global-search.js
1310–1393).  `sanFn` stands for the string-level
`sanitizeHtmlFragment(trimmed, baseUrl)` call of the raw-HTML branch, whose
HTML-parsing step belongs to the browser (the DOM-level rewriting it performs
is modelled separately on parsed trees). -/
def processLine (sanFn : String → String) (base loc : String)
    (refs : List (String × RefEntry)) (st : MdState) (line : String) : MdState :=
  let trimmed := jsTrim line
  match fenceFullMatch trimmed with
  | some fm =>
    if st.codeFenceMarker ≠ "" then
      if fm.1 = st.codeFenceMarker then flushCodeSt st
      else { st with codeLines := st.codeLines ++ [line] }
    else
      let st := flushListSt base loc refs (flushParagraphSt base loc refs st)
      { st with codeFenceMarker := fm.1, codeFenceLanguage := fm.2, codeLines := [] }
  | none =>
    if st.codeFenceMarker ≠ "" then { st with codeLines := st.codeLines ++ [line] }
    else if trimmed = "" then flushListSt base loc refs (flushParagraphSt base loc refs st)
    else if htmlLineStarts trimmed ∧ htmlTagAnywhere trimmed then
      let st := flushListSt base loc refs (flushParagraphSt base loc refs st)
      { st with out := st.out ++ [sanFn trimmed] }
    else
      match headingMatch trimmed with
      | some (level, body) =>
        let st := flushListSt base loc refs (flushParagraphSt base loc refs st)
        { st with out := st.out ++ ["<h" ++ toString level ++ ">"
            ++ formatInlineMarkdown body base loc refs ++ "</h" ++ toString level ++ ">"] }
      | none =>
        if hrMatchTest trimmed then
          let st := flushListSt base loc refs (flushParagraphSt base loc refs st)
          { st with out := st.out ++ ["<hr>"] }
        else
          match unorderedMatch trimmed with
          | some item =>
            let st := flushParagraphSt base loc refs st
            let st := if st.listType ≠ "" ∧ st.listType ≠ "ul" then
              flushListSt base loc refs st else st
            { st with listType := "ul", listItems := st.listItems ++ [item] }
          | none =>
            match orderedMatch trimmed with
            | some item =>
              let st := flushParagraphSt base loc refs st
              let st := if st.listType ≠ "" ∧ st.listType ≠ "ol" then
                flushListSt base loc refs st else st
              { st with listType := "ol", listItems := st.listItems ++ [item] }
            | none =>
              match quoteMatch trimmed with
              | some q =>
                let st := flushListSt base loc refs (flushParagraphSt base loc refs st)
                { st with out := st.out ++ ["<blockquote><p>"
                    ++ formatInlineMarkdown q base loc refs ++ "</p></blockquote>"] }
              | none => { st with paragraph := st.paragraph ++ [trimmed] }

/-- Model of `Array.prototype.join(sep)`. -/
def joinSep (sep : String) : List String → String
  | [] => ""
  | [a] => a
  | a :: b :: t => a ++ sep ++ joinSep sep (b :: t)

/-- `.replace(/\r\n/g, '\n').replace(/\r/g, '\n').split('\n')`. -/
def splitLines (s : String) : List String :=
  (splitOnCharL '\n'
    ((replaceAllL "\r\n".data "\n".data (s.data.length + 1) s.data).map
      (fun c => if c = '\r' then '\n' else c))).map String.mk

/-- `renderMarkdownToHtml(markdownText, baseUrl)` (global-search.js
1270–1400); `loc` is the ambient `window.location.href`, `sanFn` the
string-level sanitizer used by the raw-HTML branch. -/
def renderMarkdownToHtml (sanFn : String → String) (md base loc : String) : String :=
  let refState := extractMarkdownReferenceDefinitions (splitLines md) base loc
  let refs := refState.references
  let st := refState.contentLines.foldl (processLine sanFn base loc refs) {}
  let st := flushListSt base loc refs (flushParagraphSt base loc refs (flushCodeSt st))
  joinSep "\n" st.out

end DevmtgLib

namespace DevmtgLib

/-! ### `preserveMarkdownCodeFencePlaceholders` (global-search.js 1086–1126) -/

/-- The accumulators of the placeholder loop. -/
structure PreserveState where
  outputLines : List String := []
  placeholders : List (String × String) := []
  codeFenceMarker : String := ""
  codeFenceLines : List String := []
deriving Repr

/-- `flushCodeFence` (global-search.js 1093–1099), invoked on a closing
fence. -/
def flushFenceSt (st : PreserveState) : PreserveState :=
  if st.codeFenceLines = [] then st
  else
    let ph := "@@BLOGCODEFENCE" ++ toString st.placeholders.length ++ "@@"
    let newPhs := st.placeholders ++ [(ph, String.intercalate "\n" st.codeFenceLines)]
    { st with outputLines := st.outputLines ++ [ph], placeholders := newPhs,
              codeFenceLines := [] }

/-- One line of the placeholder loop (global-search.js 1101–1121); the fence
test is the prefix regex `/^(```|~~~)\s*.*$/`. -/
def preserveStep (st : PreserveState) (line : String) : PreserveState :=
  let trimmed := jsTrim line
  let fm := fencePrefixOf trimmed
  if st.codeFenceMarker ≠ "" then
    let st1 := { st with codeFenceLines := st.codeFenceLines ++ [line] }
    if fm = some st.codeFenceMarker then
      flushFenceSt { st1 with codeFenceMarker := "" }
    else st1
  else
    match fm with
    | some marker => { st with codeFenceMarker := marker, codeFenceLines := [line] }
    | none => { st with outputLines := st.outputLines ++ [line] }

/-- `preserveMarkdownCodeFencePlaceholders(markdownText)` (global-search.js
1086–1126): the tokenized text and the placeholder list; an unterminated
fence's buffered lines are appended untouched. -/
def preserveMarkdownCodeFencePlaceholders (md : String) : String × List (String × String) :=
  let st := (splitLines md).foldl preserveStep {}
  let outputLines := st.outputLines
    ++ (if st.codeFenceLines ≠ [] then st.codeFenceLines else [])
  (String.intercalate "\n" outputLines, st.placeholders)

end DevmtgLib

namespace DevmtgLib

/-! ## Records and indexing -/

/-- A talk record as fed to the library pages (spec §3: `id`, `title`,
`abstract`, `year`, `tags`, `speakers`, `meeting`, optional category). -/
structure Talk where
  id : String := ""
  title : String := ""
  abstract : String := ""
  category : String := ""
  year : String := ""
  meeting : String := ""
  tags : List String := []
  speakers : List String := []
deriving DecidableEq, Repr

/-- Modelled from the spec: the derivation of an Indexed Record is not under
`src/` (only its consumer `scoreMatch` is); spec §3 defines it as "a Record
augmented with precomputed lowercase fields (`_titleLower`, `_speakerLower`,
`_abstractLower`, `_tagsLower`, `_meetingLower`, `_year`) used only by the
Ranker".  Sequence-valued fields are joined before lowercasing. -/
def indexTalkRecord (t : Talk) : IndexedTalk :=
  { id := t.id, title := t.title, meeting := t.meeting, category := t.category,
    titleLower := lowerS t.title,
    speakerLower := lowerS (String.intercalate ", " t.speakers),
    abstractLower := lowerS t.abstract,
    tagsLower := lowerS (String.intercalate " " t.tags),
    meetingLower := lowerS t.meeting,
    yearField := t.year }

/-- Does the token occur in at least one of the six fields `scoreMatch`
scores? -/
def tokenInSomeField (t : IndexedTalk) (tok : String) : Bool :=
  (jsIndexOf t.titleLower tok).isSome || (jsIndexOf t.speakerLower tok).isSome
    || jsIncludes t.abstractLower tok || jsIncludes t.tagsLower tok
    || jsIncludes t.meetingLower tok || jsIncludes t.category tok

end DevmtgLib

namespace DevmtgLib

/-! ## The tokenizer contract as the specification words it (claim C6)

"`tokenizeQuery(query)`: scans left to right; a double-quoted span becomes
one token (quotes stripped); otherwise whitespace-delimited runs become
tokens; all tokens lowercased; tokens shorter than 2 characters are
discarded.  Produces a finite ordered sequence, order = first occurrence in
the query." -/

/-- Scan of the claim's reading: skip whitespace; at a `"` that is closed
further on around a nonempty span, the span is one unit (quotes stripped);
otherwise the maximal whitespace-delimited run is one unit. -/
def claimSpans : Nat → List Char → List (List Char)
  | 0, _ => []
  | _ + 1, [] => []
  | fuel + 1, c :: rest =>
    if isWs c then claimSpans fuel rest
    else if c = '"' ∧ (rest.takeWhile (fun d => ¬ d = '"')).length < rest.length
        ∧ rest.takeWhile (fun d => ¬ d = '"') ≠ [] then
      let span := rest.takeWhile (fun d => ¬ d = '"')
      span :: claimSpans fuel (rest.drop (span.length + 1))
    else
      let run := (c :: rest).takeWhile (fun d => ¬ isWs d)
      run :: claimSpans fuel ((c :: rest).drop run.length)

/-- The tokenizer exactly as claim C6 states it: spans, lowercased, tokens
shorter than 2 characters discarded — the claim mentions no trimming. -/
def tokenizeQueryClaim (query : String) : List String :=
  ((claimSpans (query.data.length + 1) query.data).map
      (fun m => lowerS (String.mk m))).filter (fun t => 2 ≤ t.length)

/-- The claim amended by the counterexample: a quoted span is also trimmed of
surrounding whitespace (the length-2 cut applies to the trimmed token). -/
def tokenizeQueryClaimTrimmed (query : String) : List String :=
  ((claimSpans (query.data.length + 1) query.data).map
      (fun m => jsTrim (lowerS (String.mk m)))).filter (fun t => 2 ≤ t.length)

end DevmtgLib

namespace DevmtgLib

/-! ## Lemmas about the stable sort model -/

theorem insertStable_perm (ltc : α → α → Bool) (x : α) :
    ∀ l : List α, (insertStable ltc x l).Perm (x :: l)
  | [] => List.Perm.refl _
  | y :: ys => by
    simp only [insertStable]
    split
    · exact List.Perm.refl _
    · exact (List.Perm.cons y (insertStable_perm ltc x ys)).trans (List.Perm.swap x y ys)

theorem jsSort_perm_aux (ltc : α → α → Bool) :
    ∀ (l acc : List α), (l.foldl (fun a x => insertStable ltc x a) acc).Perm (acc ++ l)
  | [], acc => by simp
  | x :: t, acc => by
    simp only [List.foldl_cons]
    have h1 := jsSort_perm_aux ltc t (insertStable ltc x acc)
    have h2 := (insertStable_perm ltc x acc).append_right t
    have h3 : (x :: acc ++ t).Perm (acc ++ x :: t) := List.perm_middle.symm
    exact (h1.trans h2).trans h3

theorem jsSort_perm (ltc : α → α → Bool) (l : List α) : (jsSort ltc l).Perm l := by
  simpa [jsSort] using jsSort_perm_aux ltc l []

theorem insertStable_sorted (ltc : α → α → Bool)
    (hmix : ∀ x y z, ltc x y = true → ltc z y = false → ltc z x = false)
    (hasym : ∀ a b, ltc a b = true → ltc b a = false) (x : α) :
    ∀ l : List α, l.Pairwise (fun a b => ltc b a = false) →
      (insertStable ltc x l).Pairwise (fun a b => ltc b a = false)
  | [], _ => by simp [insertStable]
  | y :: ys, h => by
    rcases List.pairwise_cons.mp h with ⟨hy, hys⟩
    simp only [insertStable]
    split
    · next hxy =>
      refine List.pairwise_cons.mpr ⟨?_, h⟩
      intro z hz
      cases hz with
      | head => exact hasym _ _ hxy
      | tail _ hz => exact hmix x y z hxy (hy z hz)
    · next hxy =>
      refine List.pairwise_cons.mpr ⟨?_, insertStable_sorted ltc hmix hasym x ys hys⟩
      intro z hz
      rcases List.mem_cons.mp ((insertStable_perm ltc x ys).mem_iff.mp hz) with rfl | hz
      · simpa using hxy
      · exact hy z hz

theorem jsSort_sorted_aux (ltc : α → α → Bool)
    (hmix : ∀ x y z, ltc x y = true → ltc z y = false → ltc z x = false)
    (hasym : ∀ a b, ltc a b = true → ltc b a = false) :
    ∀ (l acc : List α), acc.Pairwise (fun a b => ltc b a = false) →
      (l.foldl (fun a x => insertStable ltc x a) acc).Pairwise (fun a b => ltc b a = false)
  | [], _, h => h
  | x :: t, acc, h => by
    simp only [List.foldl_cons]
    exact jsSort_sorted_aux ltc hmix hasym t _ (insertStable_sorted ltc hmix hasym x acc h)

theorem jsSort_sorted (ltc : α → α → Bool)
    (hmix : ∀ x y z, ltc x y = true → ltc z y = false → ltc z x = false)
    (hasym : ∀ a b, ltc a b = true → ltc b a = false) (l : List α) :
    (jsSort ltc l).Pairwise (fun a b => ltc b a = false) :=
  jsSort_sorted_aux ltc hmix hasym l [] (List.Pairwise.nil)

end DevmtgLib

namespace DevmtgLib

/-! ## Lemmas about the scorer and the ranked search -/

theorem scoreTokens_eq_none (t : IndexedTalk) :
    ∀ tokens : List String, (∃ tok ∈ tokens, tokenFieldScore t tok = 0) →
      scoreTokens t tokens = none
  | [], h => by rcases h with ⟨tok, htok, _⟩; cases htok
  | tok0 :: rest, h => by
    simp only [scoreTokens]
    by_cases h0 : tokenFieldScore t tok0 = 0
    · simp [h0]
    · rcases h with ⟨tok, htok, hz⟩
      rcases List.mem_cons.mp htok with rfl | htok
      · exact absurd hz h0
      · simp [h0, scoreTokens_eq_none t rest ⟨tok, htok, hz⟩]

theorem scoreTokens_some_pos (t : IndexedTalk) :
    ∀ (tokens : List String) (s : Rat), scoreTokens t tokens = some s →
      ∀ tok ∈ tokens, tokenFieldScore t tok ≠ 0
  | [], _, _, tok, htok => by cases htok
  | tok0 :: rest, s, hs, tok, htok => by
    simp only [scoreTokens] at hs
    by_cases h0 : tokenFieldScore t tok0 = 0
    · simp [h0] at hs
    · rcases List.mem_cons.mp htok with rfl | htok
      · exact h0
      · rcases Option.map_eq_some'.mp (by simpa [h0] using hs) with ⟨r, hr, _⟩
        exact scoreTokens_some_pos t rest r hr tok htok

theorem fieldScore_zero_of_absent (t : IndexedTalk) (tok : String)
    (h : tokenInSomeField t tok = false) : tokenFieldScore t tok = 0 := by
  simp only [tokenInSomeField, Bool.or_eq_false_iff] at h
  obtain ⟨⟨⟨⟨⟨h1, h2⟩, h3⟩, h4⟩, h5⟩, h6⟩ := h
  simp only [tokenFieldScore]
  cases hx1 : jsIndexOf t.titleLower tok with
  | some v => simp [hx1] at h1
  | none => simp [h2, h3, h4, h5, h6]

theorem fieldScore_ne_zero_in_field (t : IndexedTalk) (tok : String)
    (h : tokenFieldScore t tok ≠ 0) : tokenInSomeField t tok = true := by
  by_contra hc
  exact h (fieldScore_zero_of_absent t tok (Bool.not_eq_true _ ▸ hc))

theorem scoreMatch_pos_scoreTokens (t : IndexedTalk) (tokens : List String)
    (h : 0 < scoreMatch t tokens) : ∃ s, scoreTokens t tokens = some s := by
  by_cases he : tokens = []
  · simp [scoreMatch, he] at h
  · rcases hs : scoreTokens t tokens with _ | s
    · simp [scoreMatch, he, hs] at h
    · exact ⟨s, rfl⟩

/-- The `scored.map(e => e.talk)` array equals the records that scored
positive, in input order. -/
theorem scored_map_talk (tokens : List String) :
    ∀ talks : List IndexedTalk,
      (talks.filterMap (fun talk =>
        let score := scoreMatch talk tokens
        if 0 < score then some (RankedEntry.mk talk score) else none)).map RankedEntry.talk
      = talks.filter (fun talk => decide (0 < scoreMatch talk tokens))
  | [] => rfl
  | talk :: rest => by
    by_cases h : 0 < scoreMatch talk tokens
    · simp [List.filterMap_cons, List.filter_cons, h, scored_map_talk tokens rest]
    · simp [List.filterMap_cons, List.filter_cons, h, scored_map_talk tokens rest]

/-- In the tokenized branch, the ranked output is a permutation of the
positive-scoring records in input order. -/
theorem rank_perm_filter (talks : List IndexedTalk) (q : String)
    (h : tokenizeQuery q ≠ []) :
    (rankTalksByQuery talks q).Perm
      (talks.filter (fun talk => decide (0 < scoreMatch talk (tokenizeQuery q)))) := by
  unfold rankTalksByQuery
  rw [if_neg h]
  exact ((jsSort_perm _ _).map RankedEntry.talk).trans
    (by rw [scored_map_talk (tokenizeQuery q) talks])

theorem mem_rank_pos_score (talks : List IndexedTalk) (q : String)
    (h : tokenizeQuery q ≠ []) (t : IndexedTalk)
    (ht : t ∈ rankTalksByQuery talks q) :
    t ∈ talks ∧ 0 < scoreMatch t (tokenizeQuery q) := by
  have := (rank_perm_filter talks q h).mem_iff.mp ht
  have h2 := List.mem_filter.mp this
  exact ⟨h2.1, by simpa using h2.2⟩

end DevmtgLib

namespace DevmtgLib

/-! ## Claims C1, C10, C2 -/

/-- C1.  AND semantics: for every indexed record and every non-empty token
list, a token scoring 0 across all six scored fields forces
`scoreMatch` to return 0; consequently every record returned by
`rankTalksByQuery` for a query with at least one token contains every token
in at least one indexed field. -/
theorem scoreMatch_and_semantics :
    (∀ (t : IndexedTalk) (tokens : List String), tokens ≠ [] →
      (∃ tok ∈ tokens, tokenFieldScore t tok = 0) → scoreMatch t tokens = 0)
    ∧ (∀ (talks : List IndexedTalk) (q : String), tokenizeQuery q ≠ [] →
      ∀ t ∈ rankTalksByQuery talks q, ∀ tok ∈ tokenizeQuery q,
        tokenInSomeField t tok = true) := by
  constructor
  · intro t tokens hne hz
    simp [scoreMatch, hne, scoreTokens_eq_none t tokens hz]
  · intro talks q hq t ht tok htok
    have hpos := (mem_rank_pos_score talks q hq t ht).2
    obtain ⟨s, hs⟩ := scoreMatch_pos_scoreTokens t (tokenizeQuery q) hpos
    exact fieldScore_ne_zero_in_field t tok
      (scoreTokens_some_pos t (tokenizeQuery q) s hs tok htok)

/-- A record used to witness C1. -/
def c1Talk : IndexedTalk := { titleLower := "clang static analysis", tagsLower := "clang" }

theorem scoreMatch_and_semantics_witness :
    scoreMatch c1Talk ["zzz"] = 0
    ∧ (∀ t ∈ rankTalksByQuery [c1Talk] "clang", ∀ tok ∈ tokenizeQuery "clang",
        tokenInSomeField t tok = true) :=
  ⟨scoreMatch_and_semantics.1 c1Talk ["zzz"] (by decide)
      ⟨"zzz", by decide, fieldScore_zero_of_absent c1Talk "zzz" (by decide)⟩,
   scoreMatch_and_semantics.2 [c1Talk] "clang" (by decide)⟩

/-- C10.  Ranked-output containment: with at least one token, every returned
record is one of the inputs, no record appears more often than in the input,
and the output is no longer than the input. -/
theorem rank_output_containment :
    ∀ (talks : List IndexedTalk) (q : String), tokenizeQuery q ≠ [] →
      (∀ t ∈ rankTalksByQuery talks q, t ∈ talks)
      ∧ (rankTalksByQuery talks q).length ≤ talks.length
      ∧ ∀ t : IndexedTalk, (rankTalksByQuery talks q).count t ≤ talks.count t := by
  intro talks q h
  have hp := rank_perm_filter talks q h
  refine ⟨?_, ?_, ?_⟩
  · intro t ht
    exact (List.filter_sublist talks).subset (hp.mem_iff.mp ht)
  · rw [hp.length_eq]
    exact (List.filter_sublist talks).length_le
  · intro t
    rw [hp.count_eq]
    exact (List.filter_sublist talks).count_le t

/-- A record used to witness C10. -/
def c10Talk : IndexedTalk := { id := "x", titleLower := "clang tutorial" }

theorem rank_output_containment_witness :
    (∀ t ∈ rankTalksByQuery [c10Talk] "clang", t ∈ [c10Talk])
    ∧ (rankTalksByQuery [c10Talk] "clang").length ≤ 1
    ∧ ∀ t : IndexedTalk, (rankTalksByQuery [c10Talk] "clang").count t ≤ ([c10Talk]).count t :=
  rank_output_containment [c10Talk] "clang" (by decide)

/-- The first record of the C2 scenario, exactly as given. -/
def c2TalkA : Talk :=
  { id := "a", title := "Clang Static Analysis", tags := ["Clang"],
    meeting := "2022-10", speakers := [] }

/-- The second record of the C2 scenario, exactly as given. -/
def c2TalkB : Talk :=
  { id := "b", title := "MLIR Basics", tags := ["MLIR"],
    meeting := "2023-10", speakers := [] }

/-- C2.  Concrete ranking scenario: for the two given records (indexed as
spec §3 describes), query `"clang"` returns only record `"a"`, which scores
100 (title prefix) + 15 (tag) = 115 — the year nudge is 0 since neither
record carries a year — and record `"b"` scores 0 and is excluded. -/
theorem rank_concrete_scenario :
    rankTalksByQuery [indexTalkRecord c2TalkA, indexTalkRecord c2TalkB] "clang"
        = [indexTalkRecord c2TalkA]
    ∧ scoreMatch (indexTalkRecord c2TalkA) (tokenizeQuery "clang") = 115
    ∧ scoreMatch (indexTalkRecord c2TalkB) (tokenizeQuery "clang") = 0 := by
  have htok : tokenizeQuery "clang" = ["clang"] := by decide
  have hfA : tokenFieldScore (indexTalkRecord c2TalkA) "clang" = 115 := by
    have h1 : jsIndexOf (indexTalkRecord c2TalkA).titleLower "clang" = some 0 := by decide
    have h2 : (jsIndexOf (indexTalkRecord c2TalkA).speakerLower "clang").isSome = false := by
      decide
    have h3 : jsIncludes (indexTalkRecord c2TalkA).abstractLower "clang" = false := by decide
    have h4 : jsIncludes (indexTalkRecord c2TalkA).tagsLower "clang" = true := by decide
    have h5 : jsIncludes (indexTalkRecord c2TalkA).meetingLower "clang" = false := by decide
    have h6 : jsIncludes (indexTalkRecord c2TalkA).category "clang" = false := by decide
    rw [tokenFieldScore, h1, h2, h3, h4, h5, h6]
    norm_num
  have hfB : tokenFieldScore (indexTalkRecord c2TalkB) "clang" = 0 :=
    fieldScore_zero_of_absent _ _ (by decide)
  have hnA : yearNudge (indexTalkRecord c2TalkA) = 0 := by
    have : safeYear (indexTalkRecord c2TalkA) = 2007 := by decide
    rw [yearNudge, this]
    norm_num
  have hsA : scoreMatch (indexTalkRecord c2TalkA) ["clang"] = 115 := by
    rw [scoreMatch, if_neg (by decide)]
    simp only [scoreTokens, hfA]
    rw [if_neg (by norm_num)]
    simp only [Option.map_some', hnA]
    norm_num
  have hsB : scoreMatch (indexTalkRecord c2TalkB) ["clang"] = 0 := by
    rw [scoreMatch, if_neg (by decide)]
    simp [scoreTokens, hfB]
  refine ⟨?_, by rw [htok, hsA], by rw [htok, hsB]⟩
  rw [rankTalksByQuery, htok, if_neg (by decide)]
  simp only [List.filterMap_cons, List.filterMap_nil, hsA, hsB]
  rw [if_pos (by norm_num), if_neg (by norm_num)]
  simp [jsSort, insertStable]

end DevmtgLib

namespace DevmtgLib

/-! ## Claim C4 — the recency nudge -/

/-- Sums of the scoring constants are multiples of 5. -/
def IsMult5 (x : Rat) : Prop := ∃ k : Nat, x = 5 * k

theorem IsMult5.add {x y : Rat} (hx : IsMult5 x) (hy : IsMult5 y) : IsMult5 (x + y) := by
  obtain ⟨k, hk⟩ := hx
  obtain ⟨l, hl⟩ := hy
  exact ⟨k + l, by rw [hk, hl]; push_cast; ring⟩

theorem fieldScore_mult5 (t : IndexedTalk) (tok : String) : IsMult5 (tokenFieldScore t tok) := by
  rw [tokenFieldScore]
  refine IsMult5.add (IsMult5.add (IsMult5.add (IsMult5.add (IsMult5.add ?_ ?_) ?_) ?_) ?_) ?_
  · rcases jsIndexOf t.titleLower tok with _ | n
    · exact ⟨0, by norm_num⟩
    · rcases n with _ | m
      · exact ⟨20, by norm_num⟩
      · exact ⟨10, by norm_num⟩
  · split
    · exact ⟨6, by norm_num⟩
    · exact ⟨0, by norm_num⟩
  · split
    · exact ⟨2, by norm_num⟩
    · exact ⟨0, by norm_num⟩
  · split
    · exact ⟨3, by norm_num⟩
    · exact ⟨0, by norm_num⟩
  · split
    · exact ⟨1, by norm_num⟩
    · exact ⟨0, by norm_num⟩
  · split
    · exact ⟨1, by norm_num⟩
    · exact ⟨0, by norm_num⟩

theorem scoreTokens_mult5 (t : IndexedTalk) :
    ∀ (tokens : List String) (s : Rat), scoreTokens t tokens = some s → IsMult5 s
  | [], s, hs => by
    simp only [scoreTokens, Option.some_inj] at hs
    exact ⟨0, by rw [← hs]; norm_num⟩
  | tok :: rest, s, hs => by
    simp only [scoreTokens] at hs
    by_cases h0 : tokenFieldScore t tok = 0
    · simp [h0] at hs
    · rcases Option.map_eq_some'.mp (by simpa [h0] using hs) with ⟨r, hr, hsum⟩
      exact hsum ▸ (fieldScore_mult5 t tok).add (scoreTokens_mult5 t rest r hr)

theorem yearNudge_bounds (t : IndexedTalk) (h1 : 2007 ≤ safeYear t)
    (h2 : safeYear t ≤ 2056) : 0 ≤ yearNudge t ∧ yearNudge t < 5 := by
  rw [yearNudge]
  have hl : (0 : Rat) ≤ ((safeYear t - 2007 : Int) : Rat) := by
    have : (0 : Int) ≤ safeYear t - 2007 := by omega
    exact_mod_cast this
  have hr : ((safeYear t - 2007 : Int) : Rat) ≤ 49 := by
    have : safeYear t - 2007 ≤ (49 : Int) := by omega
    exact_mod_cast this
  constructor
  · positivity
  · nlinarith

/-- C4 counterexample: a record whose `_year` parses to 2057 gets a nudge of
exactly 5, the smallest single-field contribution — not strictly smaller. -/
theorem yearNudge_counterexample :
    yearNudge { yearField := "2057" } = 5
    ∧ ¬ yearNudge ({ yearField := "2057" } : IndexedTalk) < 5 := by
  have h : safeYear ({ yearField := "2057" } : IndexedTalk) = 2057 := by decide
  rw [yearNudge, h]
  norm_num

/-- C4, amended: for records whose parsed year lies between 2007 and 2056 the
recency nudge is nonnegative and strictly below 5, the smallest single-field
contribution, and between two such records a strictly larger textual match
total always produces a strictly larger `scoreMatch` — the nudge never
reorders records with different textual scores.  (At year 2057 the nudge
reaches exactly 5, and years before 2007 give negative nudges.) -/
theorem yearNudge_tie_break_only :
    ∀ (a b : IndexedTalk) (tokens : List String) (sa sb : Rat),
      2007 ≤ safeYear a → safeYear a ≤ 2056 →
      2007 ≤ safeYear b → safeYear b ≤ 2056 →
      (0 ≤ yearNudge a ∧ yearNudge a < 5)
      ∧ (scoreTokens a tokens = some sa → scoreTokens b tokens = some sb →
          sb < sa → scoreMatch b tokens < scoreMatch a tokens) := by
  intro a b tokens sa sb ha1 ha2 hb1 hb2
  refine ⟨yearNudge_bounds a ha1 ha2, ?_⟩
  intro hsa hsb hlt
  by_cases hne : tokens = []
  · rw [hne] at hsa hsb
    simp only [scoreTokens, Option.some_inj] at hsa hsb
    rw [← hsa, ← hsb] at hlt
    exact absurd hlt (lt_irrefl 0)
  · obtain ⟨ka, hka⟩ := scoreTokens_mult5 a tokens sa hsa
    obtain ⟨kb, hkb⟩ := scoreTokens_mult5 b tokens sb hsb
    have hk : kb < ka := by
      by_contra hc
      push_neg at hc
      rw [hka, hkb] at hlt
      have : (ka : Rat) ≤ kb := by exact_mod_cast hc
      nlinarith
    have hgap : sb + 5 ≤ sa := by
      rw [hka, hkb]
      have : (kb : Rat) + 1 ≤ ka := by exact_mod_cast hk
      nlinarith
    have hna := yearNudge_bounds a ha1 ha2
    have hnb := yearNudge_bounds b hb1 hb2
    have hma : scoreMatch a tokens = sa + yearNudge a := by
      rw [scoreMatch, if_neg hne, hsa]
    have hmb : scoreMatch b tokens = sb + yearNudge b := by
      rw [scoreMatch, if_neg hne, hsb]
    rw [hma, hmb]
    have := hna.1
    have := hnb.2
    linarith

/-- Record used to witness the amended C4 (year 2010, title scores 100). -/
def c4TalkA : IndexedTalk := { titleLower := "ab", yearField := "2010" }

/-- Record used to witness the amended C4 (year 2012, title scores 50). -/
def c4TalkB : IndexedTalk := { titleLower := "zab", yearField := "2012" }

theorem yearNudge_tie_break_only_witness :
    (0 ≤ yearNudge c4TalkA ∧ yearNudge c4TalkA < 5)
    ∧ scoreMatch c4TalkB ["ab"] < scoreMatch c4TalkA ["ab"] := by
  have hfA : tokenFieldScore c4TalkA "ab" = 100 := by
    have h1 : jsIndexOf c4TalkA.titleLower "ab" = some 0 := by decide
    have h2 : (jsIndexOf c4TalkA.speakerLower "ab").isSome = false := by decide
    have h3 : jsIncludes c4TalkA.abstractLower "ab" = false := by decide
    have h4 : jsIncludes c4TalkA.tagsLower "ab" = false := by decide
    have h5 : jsIncludes c4TalkA.meetingLower "ab" = false := by decide
    have h6 : jsIncludes c4TalkA.category "ab" = false := by decide
    rw [tokenFieldScore, h1, h2, h3, h4, h5, h6]
    norm_num
  have hfB : tokenFieldScore c4TalkB "ab" = 50 := by
    have h1 : jsIndexOf c4TalkB.titleLower "ab" = some 1 := by decide
    have h2 : (jsIndexOf c4TalkB.speakerLower "ab").isSome = false := by decide
    have h3 : jsIncludes c4TalkB.abstractLower "ab" = false := by decide
    have h4 : jsIncludes c4TalkB.tagsLower "ab" = false := by decide
    have h5 : jsIncludes c4TalkB.meetingLower "ab" = false := by decide
    have h6 : jsIncludes c4TalkB.category "ab" = false := by decide
    rw [tokenFieldScore, h1, h2, h3, h4, h5, h6]
    norm_num
  have hsA : scoreTokens c4TalkA ["ab"] = some 100 := by
    simp only [scoreTokens, hfA]
    rw [if_neg (by norm_num)]
    simp only [Option.map_some']
    norm_num
  have hsB : scoreTokens c4TalkB ["ab"] = some 50 := by
    simp only [scoreTokens, hfB]
    rw [if_neg (by norm_num)]
    simp only [Option.map_some']
    norm_num
  have happ := yearNudge_tie_break_only c4TalkA c4TalkB ["ab"] 100 50
    (by decide) (by decide) (by decide) (by decide)
  exact ⟨happ.1, happ.2 hsA hsB (by norm_num)⟩

end DevmtgLib

namespace DevmtgLib

/-! ## Claim C5 — empty-query fallback -/

theorem localeCompare_neg_iff (x y : String) : localeCompare x y < 0 ↔ x < y := by
  rw [localeCompare]
  split
  · next h => simpa using h
  · next h =>
    split
    · next h2 => simp [h]
    · next h2 => simp [h]

/-- The meeting comparator of the chronological fallback. -/
theorem meeting_ltc_iff (a b : IndexedTalk) :
    (decide (localeCompare b.meeting a.meeting < 0) = true) ↔ b.meeting < a.meeting := by
  rw [decide_eq_true_iff, localeCompare_neg_iff]

/-- C5.  Empty-query fallback: a query with no tokens returns all input
records — a length-preserving permutation — sorted by descending meeting
identifier (lexicographic string order). -/
theorem rank_empty_query :
    ∀ (talks : List IndexedTalk) (q : String), tokenizeQuery q = [] →
      (rankTalksByQuery talks q).Perm talks
      ∧ (rankTalksByQuery talks q).length = talks.length
      ∧ (rankTalksByQuery talks q).Pairwise (fun a b => b.meeting ≤ a.meeting) := by
  intro talks q h
  have hrw : rankTalksByQuery talks q
      = jsSort (fun a b => decide (localeCompare b.meeting a.meeting < 0)) talks := by
    rw [rankTalksByQuery, h, if_pos rfl]
  have hperm := jsSort_perm
    (fun a b : IndexedTalk => decide (localeCompare b.meeting a.meeting < 0)) talks
  refine ⟨hrw ▸ hperm, hrw ▸ hperm.length_eq, ?_⟩
  rw [hrw]
  have hsorted := jsSort_sorted
    (fun a b : IndexedTalk => decide (localeCompare b.meeting a.meeting < 0))
    (by
      intro x y z hxy hzy
      rw [meeting_ltc_iff] at hxy
      rw [Bool.eq_false_iff, ne_eq, meeting_ltc_iff] at hzy
      rw [Bool.eq_false_iff, ne_eq, meeting_ltc_iff]
      intro hzx
      exact absurd (lt_of_lt_of_le hzx (le_of_not_lt hzy)) (asymm hxy))
    (by
      intro x y hxy
      rw [meeting_ltc_iff] at hxy
      rw [Bool.eq_false_iff, ne_eq, meeting_ltc_iff]
      exact fun hc => absurd hxy (asymm hc))
    talks
  refine hsorted.imp ?_
  intro a b hab
  have := Bool.eq_false_iff.mp hab
  rw [ne_eq, meeting_ltc_iff] at this
  exact le_of_not_lt this

end DevmtgLib

namespace DevmtgLib

/-- Record used to witness C5 (meeting 2022-10). -/
def c5TalkA : IndexedTalk := { id := "a", meeting := "2022-10" }

/-- Record used to witness C5 (meeting 2023-10). -/
def c5TalkB : IndexedTalk := { id := "b", meeting := "2023-10" }

theorem rank_empty_query_witness :
    (rankTalksByQuery [c5TalkA, c5TalkB] "").Perm [c5TalkA, c5TalkB]
    ∧ (rankTalksByQuery [c5TalkA, c5TalkB] "").length = 2
    ∧ (rankTalksByQuery [c5TalkA, c5TalkB] "").Pairwise
        (fun a b => b.meeting ≤ a.meeting) :=
  rank_empty_query [c5TalkA, c5TalkB] "" (by decide)

end DevmtgLib

namespace DevmtgLib

/-! ## Claim C6 — the tokenizer contract -/

theorem dropWhile_eq_drop_length_takeWhile (p : Char → Bool) (l : List Char) :
    l.dropWhile p = l.drop (l.takeWhile p).length := by
  induction l with
  | nil => simp
  | cons c t ih =>
    by_cases h : p c
    · simp [List.dropWhile_cons, List.takeWhile_cons, h, ih]
    · simp [List.dropWhile_cons, List.takeWhile_cons, h]

theorem dropWhile_ne_nil_iff_length (p : Char → Bool) (l : List Char) :
    l.dropWhile p ≠ [] ↔ (l.takeWhile p).length < l.length := by
  have hsum : (l.takeWhile p).length + (l.dropWhile p).length = l.length := by
    rw [← List.length_append, List.takeWhile_append_dropWhile]
  constructor
  · intro h
    have : (l.dropWhile p).length ≠ 0 := fun hc => h (List.length_eq_zero.mp hc)
    omega
  · intro h hc
    rw [hc] at hsum
    simp at hsum
    omega

/-- The regex scan of `tokenizeQuery` and the claim's span description agree
span for span. -/
theorem tokenScan_eq_claimSpans : ∀ (fuel : Nat) (cs : List Char),
    tokenScan fuel cs = claimSpans fuel cs
  | 0, _ => rfl
  | _ + 1, [] => rfl
  | fuel + 1, c :: rest => by
    simp only [tokenScan, claimSpans]
    have hiff : (c = '"' ∧ quotedAltMatches rest = true)
        ↔ (c = '"' ∧ (rest.takeWhile (fun d => ¬ d = '"')).length < rest.length
            ∧ rest.takeWhile (fun d => ¬ d = '"') ≠ []) := by
      rw [quotedAltMatches, decide_eq_true_iff]
      constructor
      · rintro ⟨hc, ht, hd⟩
        exact ⟨hc, (dropWhile_ne_nil_iff_length _ _).mp hd, ht⟩
      · rintro ⟨hc, hlen, ht⟩
        exact ⟨hc, ht, (dropWhile_ne_nil_iff_length _ _).mpr hlen⟩
    by_cases hws : isWs c
    · simp [hws, tokenScan_eq_claimSpans fuel rest]
    · simp only [hws, Bool.false_eq_true, if_false]
      by_cases hq : c = '"' ∧ quotedAltMatches rest = true
      · rw [if_pos hq, if_pos (hiff.mp hq)]
        have hafter : (rest.dropWhile (fun d => ¬ d = '"')).drop 1
            = rest.drop ((rest.takeWhile (fun d => ¬ d = '"')).length + 1) := by
          rw [dropWhile_eq_drop_length_takeWhile, List.drop_drop, Nat.add_comm]
        rw [hafter, tokenScan_eq_claimSpans fuel _]
      · rw [if_neg hq, if_neg (fun hc => hq (hiff.mpr hc))]
        rw [dropWhile_eq_drop_length_takeWhile, tokenScan_eq_claimSpans fuel _]

/-- C6 counterexample: the quoted query `" a "` tokenizes to nothing — the
source trims the quoted span to `a` (length 1, discarded) — while the claim's
description (quotes stripped, no trimming) yields the single token `" a "`. -/
theorem tokenize_contract_counterexample :
    tokenizeQuery "\" a \"" = []
    ∧ tokenizeQueryClaim "\" a \"" = [" a "]
    ∧ tokenizeQuery "\" a \"" ≠ tokenizeQueryClaim "\" a \"" := by decide

/-- C6, amended: `tokenizeQuery` scans left to right, turns each double-quoted
span into a single token with the quotes stripped *and surrounding whitespace
trimmed*, turns every other whitespace-delimited run into a token, lowercases
all tokens, discards every token shorter than 2 characters after trimming,
and returns the tokens ordered by first occurrence. -/
theorem tokenize_contract_amended (q : String) :
    tokenizeQuery q = tokenizeQueryClaimTrimmed q := by
  rw [tokenizeQuery, tokenizeQueryClaimTrimmed, tokenScan_eq_claimSpans]

end DevmtgLib

namespace DevmtgLib

/-! ## Claim C7 — YouTube id round-trip -/

theorem takeWhile_cons_false (p : Char → Bool) (c : Char) (l : List Char)
    (h : p c = false) : (c :: l).takeWhile p = [] := by
  simp [List.takeWhile_cons, h]

theorem dropWhile_cons_false (p : Char → Bool) (c : Char) (l : List Char)
    (h : p c = false) : (c :: l).dropWhile p = c :: l := by
  simp [List.dropWhile_cons, h]

theorem takeWhile_append_all (p : Char → Bool) :
    ∀ (l1 l2 : List Char), (∀ c ∈ l1, p c = true) →
      (l1 ++ l2).takeWhile p = l1 ++ l2.takeWhile p
  | [], l2, _ => by simp
  | c :: t, l2, h => by
    have hc := h c (List.mem_cons_self c t)
    simp only [List.cons_append, List.takeWhile_cons, hc, if_true]
    rw [takeWhile_append_all p t l2 (fun d hd => h d (List.mem_cons_of_mem c hd))]

theorem dropWhile_append_all (p : Char → Bool) :
    ∀ (l1 l2 : List Char), (∀ c ∈ l1, p c = true) →
      (l1 ++ l2).dropWhile p = l2.dropWhile p
  | [], l2, _ => by simp
  | c :: t, l2, h => by
    have hc := h c (List.mem_cons_self c t)
    simp only [List.cons_append, List.dropWhile_cons, hc, if_true]
    exact dropWhile_append_all p t l2 (fun d hd => h d (List.mem_cons_of_mem c hd))

theorem takeWhile_all (p : Char → Bool) (l : List Char) (h : ∀ c ∈ l, p c = true) :
    l.takeWhile p = l := by
  induction l with
  | nil => rfl
  | cons c t ih =>
    simp only [List.takeWhile_cons, h c (List.mem_cons_self c t), if_true]
    rw [ih (fun d hd => h d (List.mem_cons_of_mem c hd))]

theorem dropWhile_all (p : Char → Bool) (l : List Char) (h : ∀ c ∈ l, p c = true) :
    l.dropWhile p = [] := by
  induction l with
  | nil => rfl
  | cons c t ih =>
    simp only [List.dropWhile_cons, h c (List.mem_cons_self c t), if_true]
    exact ih (fun d hd => h d (List.mem_cons_of_mem c hd))

theorem splitOnCharL_no_sep (sep : Char) (l : List Char) (h : ∀ c ∈ l, c ≠ sep) :
    splitOnCharL sep l = [l] := by
  induction l with
  | nil => rfl
  | cons c t ih =>
    have hc := h c (List.mem_cons_self c t)
    simp only [splitOnCharL, if_neg hc, ih (fun d hd => h d (List.mem_cons_of_mem c hd))]


/-- The characters admitted by `isYouTubeVideoId` avoid every URL
metacharacter the parser splits on. -/
theorem goodChar_ne (c : Char) (h : c.isAlphanum ∨ c = '_' ∨ c = '-') :
    c ≠ '/' ∧ c ≠ '?' ∧ c ≠ '#' ∧ c ≠ ':' ∧ c ≠ '@' := by
  rcases h with h1 | h2 | h3
  · refine ⟨?_, ?_, ?_, ?_, ?_⟩ <;> (intro hc; rw [hc] at h1; exact absurd h1 (by decide))
  · subst h2; refine ⟨by decide, by decide, by decide, by decide, by decide⟩
  · subst h3; refine ⟨by decide, by decide, by decide, by decide, by decide⟩


/-- Tab/newline removal is the identity on strings free of those
characters. -/
theorem stripTabNl_eq_self (s : String)
    (h : ∀ c ∈ s.data, ¬ (c = '\t' ∨ c = '\n' ∨ c = '\r')) : stripTabNl s = s := by
  apply String.ext
  exact List.filter_eq_self.mpr (fun a ha => decide_eq_true (h a ha))

theorem takeScheme_youtu (tail : List Char) :
    takeScheme ("https://youtu.be/".data ++ tail)
      = some ("https".data, "//youtu.be/".data ++ tail) := by
  rw [show "https://youtu.be/".data
      = 'h' :: 't' :: 't' :: 'p' :: 's' :: ':' :: '/' :: '/' :: 'y' :: 'o' :: 'u' :: 't'
        :: 'u' :: '.' :: 'b' :: 'e' :: '/' :: []
    from by decide]
  simp only [List.cons_append, List.nil_append]
  simp [takeScheme, List.takeWhile_cons, List.dropWhile_cons]

end DevmtgLib

namespace DevmtgLib

theorem parseJsUrl_youtu (tail : List Char)
    (hall : ∀ c ∈ tail, c.isAlphanum ∨ c = '_' ∨ c = '-') :
    parseJsUrl (String.mk ("https://youtu.be/".data ++ tail))
      = some { scheme := "https", hostname := "youtu.be",
               pathname := String.mk ('/' :: tail), search := "", fragment := "" } := by
  have hgood : ∀ c ∈ tail, c ≠ '/' ∧ c ≠ '?' ∧ c ≠ '#' ∧ c ≠ ':' ∧ c ≠ '@' :=
    fun c hc => goodChar_ne c (hall c hc)
  have hq : ∀ c ∈ tail, (fun c => !decide (c = '?') && !decide (c = '#')) c = true := by
    intro c hc
    have := hgood c hc
    simp [this.2.1, this.2.2.1]
  have hpath := takeWhile_all _ tail hq
  have hpath2 := dropWhile_all _ tail hq
  have hstripid : stripTabNl (String.mk ("https://youtu.be/".data ++ tail))
      = String.mk ("https://youtu.be/".data ++ tail) := by
    apply stripTabNl_eq_self
    intro c hc
    have hc2 : c ∈ "https://youtu.be/".data ++ tail := hc
    rcases List.mem_append.mp hc2 with hc3 | hc3
    · intro hbad
      rcases hbad with rfl | rfl | rfl <;> revert hc3 <;> decide
    · rcases hall c hc3 with h1 | h2 | h3
      · intro hbad
        rcases hbad with rfl | rfl | rfl <;> exact absurd h1 (by decide)
      · subst h2
        decide
      · subst h3
        decide
  have hts : takeScheme ((String.mk ("https://youtu.be/".data ++ tail)).data)
      = some ("https".data, "//youtu.be/".data ++ tail) := takeScheme_youtu tail
  simp only [parseJsUrl, hstripid, hts]
  simp [List.cons_append, List.takeWhile_cons, List.dropWhile_cons, afterLastAt, lowerS,
    specialSchemes, hpath, hpath2]

end DevmtgLib

namespace DevmtgLib

theorem truthy_some_ne (s : String) (h : s ≠ "") : truthy (some s) = some s := by
  simp [truthy, h]

theorem extractYouTubeId_roundtrip (s : String) (h : isYouTubeVideoId (some s) = true) :
    extractYouTubeId ("https://youtu.be/" ++ s) = some s := by
  rw [isYouTubeVideoId, decide_eq_true_iff] at h
  obtain ⟨hlen, hallb⟩ := h
  have hall : ∀ c ∈ s.data, c.isAlphanum ∨ c = '_' ∨ c = '-' := by
    intro c hc
    exact of_decide_eq_true (List.all_eq_true.mp hallb c hc)
  have hne : s ≠ "" := by
    intro hc
    rw [hc] at hlen
    simp [String.length] at hlen
  have hmk : "https://youtu.be/" ++ s = String.mk ("https://youtu.be/".data ++ s.data) := by
    apply String.ext
    rw [String.data_append]
  have hmkne : String.mk ("https://youtu.be/".data ++ s.data) ≠ "" := by
    intro hc
    have := congrArg String.data hc
    simp at this
  rw [hmk, extractYouTubeId, if_neg hmkne, parseJsUrl_youtu s.data hall]
  have hsegs : pathSegments (String.mk ('/' :: s.data)) = [s] := by
    rw [pathSegments, jsSplitChar]
    have hsd : (String.mk ('/' :: s.data)).data = '/' :: s.data := rfl
    rw [hsd]
    have hnosep : ∀ c ∈ s.data, c ≠ '/' :=
      fun c hc => (goodChar_ne c (hall c hc)).1
    simp only [splitOnCharL, if_pos rfl, splitOnCharL_no_sep '/' s.data hnosep]
    simp [hne]
  have hstrip : stripLeadingWww "youtu.be" = "youtu.be" := by decide
  simp [hstrip, hsegs, truthy_some_ne s hne, isYouTubeVideoId, hlen, hallb]
  intro x hx h1 h2
  rcases hall x hx with ha | hb | hc
  · rw [ha] at h1; exact absurd h1 (by simp)
  · exact absurd hb h2
  · exact hc

/-- C7.  YouTube id round-trip: for every 11-character id matching
`[A-Za-z0-9_-]`, `extractYouTubeId` recovers it from the synthesized
`https://youtu.be/<id>` URL; for a string the URL parser rejects, and for a
well-formed URL on a non-YouTube host, the result is `null`. -/
theorem extractYouTubeId_contract :
    (∀ s : String, isYouTubeVideoId (some s) = true →
        extractYouTubeId ("https://youtu.be/" ++ s) = some s)
    ∧ (∀ u : String, parseJsUrl u = none → extractYouTubeId u = none)
    ∧ (∀ (u : String) (r : JsUrl), parseJsUrl u = some r →
        stripLeadingWww r.hostname ≠ "youtu.be" →
        jsEndsWith (stripLeadingWww r.hostname) "youtube.com" = false →
        extractYouTubeId u = none) := by
  refine ⟨extractYouTubeId_roundtrip, ?_, ?_⟩
  · intro u hp
    by_cases hu : u = ""
    · rw [extractYouTubeId, if_pos hu]
    · rw [extractYouTubeId, if_neg hu, hp]
  · intro u r hp h1 h2
    by_cases hu : u = ""
    · rw [extractYouTubeId, if_pos hu]
    · rw [extractYouTubeId, if_neg hu, hp]
      simp [h1, h2, isYouTubeVideoId]

theorem extractYouTubeId_contract_witness :
    extractYouTubeId ("https://youtu.be/" ++ "dQw4w9WgXcQ") = some "dQw4w9WgXcQ"
    ∧ extractYouTubeId "notaurl" = none
    ∧ extractYouTubeId "https://example.com/dQw4w9WgXcQ" = none :=
  ⟨extractYouTubeId_contract.1 "dQw4w9WgXcQ" (by decide),
   extractYouTubeId_contract.2.1 "notaurl" (by decide),
   extractYouTubeId_contract.2.2 "https://example.com/dQw4w9WgXcQ"
     { scheme := "https", hostname := "example.com", pathname := "/dQw4w9WgXcQ" }
     (by decide) (by decide) (by decide)⟩

end DevmtgLib

namespace DevmtgLib

/-! ## Claim C8 — concrete markdown scenario -/

/-- C8.  Rendering `"Hello **world** [link](javascript:alert(1))"` keeps
`<strong>world</strong>` intact, strips the `javascript:` URL entirely (the
link degrades to its escaped label, so no `href` attribute and no
`javascript` text appear in the output), and retains the text `link`.  The
sanitizer callback and the base/location URLs are instantiated with fixed
values; this input never reaches them — it contains no raw-HTML line, and
`resolveContentUrl` rejects the `javascript:` scheme before consulting any
base URL. -/
theorem markdown_concrete_scenario :
    renderMarkdownToHtml (fun s => s) "Hello **world** [link](javascript:alert(1))"
        "https://llvm.org/devmtg/" "https://llvm.org/"
        = "<p>Hello <strong>world</strong> link)</p>"
    ∧ jsIncludes
        (renderMarkdownToHtml (fun s => s) "Hello **world** [link](javascript:alert(1))"
          "https://llvm.org/devmtg/" "https://llvm.org/")
        "<strong>world</strong>" = true
    ∧ jsIncludes
        (renderMarkdownToHtml (fun s => s) "Hello **world** [link](javascript:alert(1))"
          "https://llvm.org/devmtg/" "https://llvm.org/")
        "javascript" = false
    ∧ jsIncludes
        (renderMarkdownToHtml (fun s => s) "Hello **world** [link](javascript:alert(1))"
          "https://llvm.org/devmtg/" "https://llvm.org/")
        "link" = true := by
  refine ⟨by decide, by decide, by decide, by decide⟩

end DevmtgLib

namespace DevmtgLib

/-! ## Claim C9 — unterminated code fence at end of input -/

/-- The accumulator state of the line loop of `renderMarkdownToHtml` when end
of input is reached, before the final flushes (global-search.js 1310–1393). -/
def mdLineState (sanFn : String → String) (md base loc : String) : MdState :=
  let refState := extractMarkdownReferenceDefinitions (splitLines md) base loc
  refState.contentLines.foldl (processLine sanFn base loc refState.references) {}

/-- The accumulator state of the loop of
`preserveMarkdownCodeFencePlaceholders` when end of input is reached
(global-search.js 1101–1121). -/
def preserveRunState (md : String) : PreserveState :=
  (splitLines md).foldl preserveStep {}

/-- `flushParagraph` only ever appends to `out`. -/
theorem flushParagraphSt_out (base loc : String) (refs : List (String × RefEntry))
    (st : MdState) : ∃ t, (flushParagraphSt base loc refs st).out = st.out ++ t := by
  simp only [flushParagraphSt]
  split
  · exact ⟨[], (List.append_nil _).symm⟩
  · split
    · exact ⟨[], (List.append_nil _).symm⟩
    · exact ⟨_, rfl⟩

/-- `flushList` only ever appends to `out`. -/
theorem flushListSt_out (base loc : String) (refs : List (String × RefEntry))
    (st : MdState) : ∃ t, (flushListSt base loc refs st).out = st.out ++ t := by
  simp only [flushListSt]
  split
  · exact ⟨[], (List.append_nil _).symm⟩
  · exact ⟨_, rfl⟩

/-- With a fence still open, `flushCode` appends exactly one `<pre><code…>`
block whose body is the HTML-escaped join of the buffered fence lines. -/
theorem flushCodeSt_out (st : MdState) (h : ¬ st.codeFenceMarker = "") :
    ∃ p q, (flushCodeSt st).out
      = st.out ++ [p ++ escapeHtml (String.intercalate "\n" st.codeLines) ++ q] := by
  simp only [flushCodeSt, if_neg h]
  exact ⟨_, _, rfl⟩

/-- A member of the joined list is a substring of the join. -/
theorem joinSep_mem (sep s : String) (l : List String) (h : s ∈ l) :
    ∃ p q, joinSep sep l = p ++ s ++ q := by
  induction l with
  | nil => cases h
  | cons a t ih =>
    cases t with
    | nil =>
      have hs : s = a := by
        rcases List.mem_cons.mp h with h1 | h1
        · exact h1
        · cases h1
      subst hs
      exact ⟨"", "", by simp only [joinSep, String.empty_append, String.append_empty]⟩
    | cons b t2 =>
      rcases List.mem_cons.mp h with h1 | h1
      · subst h1
        refine ⟨"", sep ++ joinSep sep (b :: t2), ?_⟩
        simp only [joinSep, String.empty_append, String.append_assoc]
      · obtain ⟨p, q, hp⟩ := ih h1
        refine ⟨a ++ sep ++ p, q, ?_⟩
        simp only [joinSep, hp, String.append_assoc]

/-- The final flush sequence of `renderMarkdownToHtml` keeps the escaped body
of an open code fence inside the joined output. -/
theorem renderFinal_mem (base loc : String) (refs : List (String × RefEntry))
    (st : MdState) (h : ¬ st.codeFenceMarker = "") :
    ∃ p q,
      joinSep "\n"
          (flushListSt base loc refs (flushParagraphSt base loc refs (flushCodeSt st))).out
        = p ++ escapeHtml (String.intercalate "\n" st.codeLines) ++ q := by
  obtain ⟨p0, q0, hc⟩ := flushCodeSt_out st h
  obtain ⟨t1, h1⟩ := flushParagraphSt_out base loc refs (flushCodeSt st)
  obtain ⟨t2, h2⟩ := flushListSt_out base loc refs (flushParagraphSt base loc refs (flushCodeSt st))
  have hmem : (p0 ++ escapeHtml (String.intercalate "\n" st.codeLines) ++ q0)
      ∈ (flushListSt base loc refs (flushParagraphSt base loc refs (flushCodeSt st))).out := by
    rw [h2, h1, hc]
    simp
  obtain ⟨p, q, hj⟩ := joinSep_mem "\n" _ _ hmem
  refine ⟨p ++ p0, q0 ++ q, ?_⟩
  rw [hj]
  simp only [String.append_assoc]

/-- `flushCodeFence` never touches the marker. -/
theorem flushFenceSt_marker (st : PreserveState) :
    (flushFenceSt st).codeFenceMarker = st.codeFenceMarker := by
  simp only [flushFenceSt]
  split
  · rfl
  · rfl

/-- One step of the placeholder loop preserves the invariant that an open
fence has buffered at least its opening line. -/
theorem preserveStep_inv (st : PreserveState) (line : String) :
    (preserveStep st line).codeFenceMarker ≠ "" →
      (preserveStep st line).codeFenceLines ≠ [] := by
  simp only [preserveStep]
  split
  · split
    · intro hm
      rw [flushFenceSt_marker] at hm
      exact absurd rfl hm
    · intro _
      simp
  · next hne =>
    split
    · intro _
      simp
    · intro hm
      exact absurd (not_not.mp hne) hm

/-- Over the whole input, an open fence at end of input has buffered lines. -/
theorem preserveFold_inv (lines : List String) :
    ∀ st : PreserveState, (st.codeFenceMarker ≠ "" → st.codeFenceLines ≠ []) →
      (lines.foldl preserveStep st).codeFenceMarker ≠ "" →
        (lines.foldl preserveStep st).codeFenceLines ≠ [] := by
  induction lines with
  | nil => intro st h; exact h
  | cons a t ih => intro st h; exact ih _ (preserveStep_inv st a)

/-- C9.  When the final code fence is never closed — the line machine of
`renderMarkdownToHtml` ends with `codeFenceMarker` still set, and likewise the
loop of `preserveMarkdownCodeFencePlaceholders` — end of input flushes every
open accumulator: the rendered output contains the HTML-escaped join of the
buffered fence lines (emitted as a `<pre><code>` block by the final
`flushCode`), and the placeholder pass returns the buffered fence lines
appended verbatim after the other output lines, which are non-empty, so
nothing is silently dropped.  Both functions are total Lean definitions
evaluated to completion on every input, the model of "never throws". -/
theorem markdown_unterminated_fence (sanFn : String → String) (md base loc : String)
    (hR : (mdLineState sanFn md base loc).codeFenceMarker ≠ "")
    (hP : (preserveRunState md).codeFenceMarker ≠ "") :
    (∃ p q, renderMarkdownToHtml sanFn md base loc
        = p ++ escapeHtml (String.intercalate "\n" (mdLineState sanFn md base loc).codeLines)
          ++ q)
    ∧ (preserveMarkdownCodeFencePlaceholders md).1
        = String.intercalate "\n"
            ((preserveRunState md).outputLines ++ (preserveRunState md).codeFenceLines)
    ∧ (preserveRunState md).codeFenceLines ≠ [] := by
  have hlines : (preserveRunState md).codeFenceLines ≠ [] :=
    preserveFold_inv (splitLines md) {} (fun hm => absurd rfl hm) hP
  refine ⟨?_, ?_, hlines⟩
  · obtain ⟨p, q, hj⟩ := renderFinal_mem base loc
      (extractMarkdownReferenceDefinitions (splitLines md) base loc).references
      (mdLineState sanFn md base loc) hR
    exact ⟨p, q, hj⟩
  · have he : (preserveMarkdownCodeFencePlaceholders md).1
        = String.intercalate "\n" ((preserveRunState md).outputLines
            ++ (if (preserveRunState md).codeFenceLines ≠ [] then
                  (preserveRunState md).codeFenceLines else [])) := rfl
    rw [he, if_pos hlines]

/-- C9 witness: the two-line input opening a fence with three backquotes and
then the line `foo`, with the fence never closed. -/
theorem markdown_unterminated_fence_witness :
    ((mdLineState (fun s => s) "```\nfoo" "https://llvm.org/" "https://llvm.org/").codeFenceMarker
        ≠ ""
      ∧ (preserveRunState "```\nfoo").codeFenceMarker ≠ "")
    ∧ ((∃ p q, renderMarkdownToHtml (fun s => s) "```\nfoo" "https://llvm.org/" "https://llvm.org/"
          = p ++ escapeHtml (String.intercalate "\n"
              (mdLineState (fun s => s) "```\nfoo" "https://llvm.org/" "https://llvm.org/").codeLines)
            ++ q)
      ∧ (preserveMarkdownCodeFencePlaceholders "```\nfoo").1
          = String.intercalate "\n"
              ((preserveRunState "```\nfoo").outputLines
                ++ (preserveRunState "```\nfoo").codeFenceLines)
      ∧ (preserveRunState "```\nfoo").codeFenceLines ≠ []) :=
  ⟨⟨by decide, by decide⟩,
    markdown_unterminated_fence (fun s => s) "```\nfoo" "https://llvm.org/" "https://llvm.org/"
      (by decide) (by decide)⟩

end DevmtgLib

namespace DevmtgLib

/-! ## Claim C3 — attribute-list lemmas -/

end DevmtgLib

namespace DevmtgLib

/-! ## Claim C3 — safety of `resolveContentUrl` outputs -/

/-- No ASCII tab, line feed or carriage return anywhere in the string — a
value violating this can smuggle a scheme past the scheme regex into the
scheme-check-free relative branch of `resolveContentUrl`. -/
def noTabNl (s : String) : Bool :=
  s.data.all (fun c => ¬ (c = '\t' ∨ c = '\n' ∨ c = '\r'))

end DevmtgLib

namespace DevmtgLib

/-! ## Claim C3 — the attribute loop of `sanitizeHtmlFragment` -/

end DevmtgLib

namespace DevmtgLib

mutual
/-- Every attribute value in the tree is free of ASCII tab and newline. -/
def noTabNlValuesN : HNode → Bool
  | HNode.text _ => true
  | HNode.elem _ a c => a.all (fun p => noTabNl p.2) && noTabNlValuesF c
def noTabNlValuesF : HForest → Bool
  | HForest.nil => true
  | HForest.cons n rest => noTabNlValuesN n && noTabNlValuesF rest
end

end DevmtgLib

namespace DevmtgLib

end DevmtgLib

namespace DevmtgLib

end DevmtgLib

namespace DevmtgLib

/-! ## Claim C3 — tree-level passes -/

end DevmtgLib

namespace DevmtgLib

end DevmtgLib

namespace DevmtgLib

end DevmtgLib

namespace DevmtgLib

end DevmtgLib
